import Mathlib

/-!
# Verification of targetcli's root UI (`ui_root.py`)

A shallow embedding of `targetcli/ui_root.py`: the configuration
persistence engine (`ui_command_saveconfig`, `ui_command_restoreconfig`,
`ui_command_clearconfig`) and the session inspector
(`ui_command_sessions`), together with the JSON serialization the save
path uses (`json.dumps(..., sort_keys=True, indent=2)` under Python 2.7)
and the JSON reader the restore path uses (`json.loads`).

Machine integers do not occur; Python ints are modelled as `Int`/`Nat`.
External collaborators (the rtslib `RTSRoot` backend handle, the
configshell services `assert_root` and `ui_eval_param`, and the OS file
layer) are modelled explicitly, from the interfaces the spec describes;
each such definition carries a doc comment saying so.
-/

namespace Targetcli

/-! ## Snapshot values

`JValue` models the JSON documents produced by `RTSRoot().dump()` and
consumed by `RTSRoot().restore()`: null, booleans, integers, strings,
arrays, and objects (Python dicts, represented as association lists). -/

inductive JValue where
  | null : JValue
  | jbool : Bool → JValue
  | jint : Int → JValue
  | jstr : String → JValue
  | jarr : List JValue → JValue
  | jobj : List (String × JValue) → JValue

/-! ## Character classes and string order

Python 2 compares `str` keys byte-lexicographically; on the ASCII subset
this is code-point order on the characters. -/

/-- ASCII decimal digit, by code point (as Python's JSON number scanner does). -/
def isDig (c : Char) : Bool := decide (48 ≤ c.toNat ∧ c.toNat ≤ 57)

/-- JSON whitespace accepted by `json.loads`: space, tab, LF, CR. -/
def isWs (c : Char) : Bool :=
  decide (c.toNat = 32 ∨ c.toNat = 9 ∨ c.toNat = 10 ∨ c.toNat = 13)

/-- Code-point lexicographic order on character lists (Python 2 `str <` on ASCII). -/
def charListLt : List Char → List Char → Bool
  | [], [] => false
  | [], _ :: _ => true
  | _ :: _, [] => false
  | a :: as, b :: bs =>
    if a.toNat < b.toNat then true
    else if b.toNat < a.toNat then false
    else charListLt as bs

/-- String order used by `sorted()` on Python 2 `str` keys (ASCII subset). -/
def strLt (a b : String) : Bool := charListLt a.data b.data

/-! ## Key sorting (`sort_keys=True`)

`json.dumps(..., sort_keys=True)` emits each object's items in ascending
key order. `sortKVs` is a stable insertion sort by key. -/

def insKV (p : String × JValue) : List (String × JValue) → List (String × JValue)
  | [] => [p]
  | q :: t => if strLt p.1 q.1 then p :: q :: t else q :: insKV p t

def sortKVs : List (String × JValue) → List (String × JValue)
  | [] => []
  | p :: t => insKV p (sortKVs t)

/-- Keys strictly ascending (the canonical form of a Python dict's item list). -/
def keysSortedB : List (String × JValue) → Bool
  | [] => true
  | [_] => true
  | p :: q :: t => strLt p.1 q.1 && keysSortedB (q :: t)

theorem sizeOf_insKV (p : String × JValue) (l : List (String × JValue)) :
    sizeOf (insKV p l) = sizeOf (p :: l) := by
  induction l with
  | nil => simp [insKV]
  | cons q t ih =>
    simp only [insKV]
    split
    · rfl
    · simp only [List.cons.sizeOf_spec] at ih ⊢
      omega

theorem sizeOf_sortKVs (l : List (String × JValue)) :
    sizeOf (sortKVs l) = sizeOf l := by
  induction l with
  | nil => rfl
  | cons p t ih =>
    simp only [sortKVs, sizeOf_insKV, List.cons.sizeOf_spec]
    omega

/-! ## Integer rendering (`str(int)` / JSON number output) -/

/-- The decimal digit character for `d` (`d ≤ 9` in every use). -/
def digitChar (d : Nat) : Char :=
  if d = 0 then '0' else if d = 1 then '1' else if d = 2 then '2'
  else if d = 3 then '3' else if d = 4 then '4' else if d = 5 then '5'
  else if d = 6 then '6' else if d = 7 then '7' else if d = 8 then '8'
  else '9'

/-- Decimal digits of a natural number, most significant first. -/
def natChars (n : Nat) : List Char :=
  if _h : n < 10 then [digitChar n]
  else natChars (n / 10) ++ [digitChar (n % 10)]
decreasing_by exact Nat.div_lt_self (by omega) (by omega)

/-- Decimal rendering of a Python int, as `json.dumps` emits it. -/
def intChars (i : Int) : List Char :=
  if i < 0 then '-' :: natChars i.natAbs else natChars i.toNat

/-! ## The serializer: Python 2.7 `json.dumps(v, sort_keys=True, indent=2)`

With `indent` given and default separators `(', ', ': ')`, Python 2.7
puts each item on its own line at the current indent, separates items
with a comma and a trailing space before the newline, and closes the
container on a fresh line at the parent indent.  Empty containers are
rendered inline. -/

def indentChars (n : Nat) : List Char := List.replicate n ' '

mutual

def dumpVal : JValue → Nat → List Char
  | .null, _ => ['n', 'u', 'l', 'l']
  | .jbool true, _ => ['t', 'r', 'u', 'e']
  | .jbool false, _ => ['f', 'a', 'l', 's', 'e']
  | .jint i, _ => intChars i
  | .jstr s, _ => '"' :: (s.data ++ ['"'])
  | .jarr [], _ => ['[', ']']
  | .jarr (x :: xs), n =>
    '[' :: '\n' :: (indentChars (n + 2) ++ (dumpVal x (n + 2) ++
      (dumpArrRest xs (n + 2) ++ '\n' :: (indentChars n ++ [']']))))
  | .jobj kvs, n =>
    match h : sortKVs kvs with
    | [] => ['{', '}']
    | (k, v) :: t =>
      '{' :: '\n' :: (indentChars (n + 2) ++ (dumpKV k v (n + 2) ++
        (dumpObjRest t (n + 2) ++ '\n' :: (indentChars n ++ ['}']))))
termination_by v _ => sizeOf v
decreasing_by
  all_goals simp_wf
  all_goals try omega
  all_goals
    (have hs := sizeOf_sortKVs kvs
     rw [h] at hs
     simp only [List.cons.sizeOf_spec, Prod.mk.sizeOf_spec] at hs
     omega)

def dumpKV (k : String) (v : JValue) (n : Nat) : List Char :=
  '"' :: (k.data ++ '"' :: ':' :: ' ' :: dumpVal v n)
termination_by sizeOf v + 1
decreasing_by simp_wf; try omega

def dumpArrRest : List JValue → Nat → List Char
  | [], _ => []
  | x :: xs, n =>
    ',' :: ' ' :: '\n' :: (indentChars n ++ (dumpVal x n ++ dumpArrRest xs n))
termination_by xs _ => sizeOf xs
decreasing_by all_goals (simp_wf; try omega)

def dumpObjRest : List (String × JValue) → Nat → List Char
  | [], _ => []
  | (k, v) :: t, n =>
    ',' :: ' ' :: '\n' :: (indentChars n ++ (dumpKV k v n ++ dumpObjRest t n))
termination_by kvs _ => sizeOf kvs
decreasing_by all_goals (simp_wf; try omega)

end

/-- Dump entry point: `json.dumps(v, sort_keys=True, indent=2)` as called at `ui_root.py:71`. -/
def dumps (v : JValue) : String := String.mk (dumpVal v 0)

/-! ## The reader: `json.loads`

A fueled recursive-descent scanner over the character list, modelling
the Python `json` scanner on the snapshot domain (null / true / false /
integers / escape-free strings / arrays / objects).  Escape sequences
and floats are outside the model: inputs using them are rejected
(`none`) rather than misread.  `parseC` expects its input already
whitespace-skipped and skips whitespace before each nested token, as
the Python scanner does. -/

/-- Drop leading JSON whitespace. -/
def skipWs : List Char → List Char
  | [] => []
  | c :: cs => if isWs c then skipWs cs else c :: cs

/-- Scan a run of decimal digits, accumulating their value. -/
def parseDigits (acc : Nat) : List Char → Nat × List Char
  | [] => (acc, [])
  | c :: cs =>
    if isDig c then parseDigits (acc * 10 + (c.toNat - 48)) cs
    else (acc, c :: cs)

/-- Scan a string body after the opening quote, up to the closing quote.
Escape sequences are outside the model and rejected. -/
def parseStrBody : List Char → Option (List Char × List Char)
  | [] => none
  | c :: cs =>
    if c = '"' then some ([], cs)
    else if c = '\\' then none
    else
      match parseStrBody cs with
      | some (s, r) => some (c :: s, r)
      | none => none

/-- What the scanner is currently reading: a value, the items of an array
after the first, or the items of an object after the first. -/
inductive PMode where
  | val : PMode
  | arrItems : PMode
  | objItems : PMode

/-- The scanner.  In `arrItems`/`objItems` mode the result is wrapped in
`.jarr`/`.jobj`.  Fuel only bounds recursion depth; `loads` supplies
enough for any input. -/
def parseC : Nat → PMode → List Char → Option (JValue × List Char)
  | 0, _, _ => none
  | f + 1, .val, cs =>
    match cs with
    | [] => none
    | c :: cs' =>
      if c = 'n' then
        match cs' with
        | 'u' :: 'l' :: 'l' :: rest => some (.null, rest)
        | _ => none
      else if c = 't' then
        match cs' with
        | 'r' :: 'u' :: 'e' :: rest => some (.jbool true, rest)
        | _ => none
      else if c = 'f' then
        match cs' with
        | 'a' :: 'l' :: 's' :: 'e' :: rest => some (.jbool false, rest)
        | _ => none
      else if c = '"' then
        match parseStrBody cs' with
        | some (s, rest) => some (.jstr (String.mk s), rest)
        | none => none
      else if c = '-' then
        match cs' with
        | d :: _ =>
          if isDig d then
            some (.jint (-((parseDigits 0 cs').1 : Int)), (parseDigits 0 cs').2)
          else none
        | [] => none
      else if c = '[' then
        match skipWs cs' with
        | ']' :: ds => some (.jarr [], ds)
        | cs'' =>
          match parseC f .val cs'' with
          | some (x, r) =>
            match parseC f .arrItems (skipWs r) with
            | some (.jarr xs, r') => some (.jarr (x :: xs), r')
            | _ => none
          | none => none
      else if c = '{' then
        match skipWs cs' with
        | '}' :: ds => some (.jobj [], ds)
        | '"' :: ds =>
          match parseStrBody ds with
          | some (k, r) =>
            match skipWs r with
            | ':' :: r' =>
              match parseC f .val (skipWs r') with
              | some (v, r2) =>
                match parseC f .objItems (skipWs r2) with
                | some (.jobj kvs, r3) => some (.jobj ((String.mk k, v) :: kvs), r3)
                | _ => none
              | none => none
            | _ => none
          | none => none
        | _ => none
      else if isDig c then
        some (.jint ((parseDigits 0 cs).1 : Int), (parseDigits 0 cs).2)
      else none
  | f + 1, .arrItems, cs =>
    match cs with
    | [] => none
    | c :: cs' =>
      if c = ']' then some (.jarr [], cs')
      else if c = ',' then
        match parseC f .val (skipWs cs') with
        | some (x, r) =>
          match parseC f .arrItems (skipWs r) with
          | some (.jarr xs, r') => some (.jarr (x :: xs), r')
          | _ => none
        | none => none
      else none
  | f + 1, .objItems, cs =>
    match cs with
    | [] => none
    | c :: cs' =>
      if c = '}' then some (.jobj [], cs')
      else if c = ',' then
        match skipWs cs' with
        | '"' :: ds =>
          match parseStrBody ds with
          | some (k, r) =>
            match skipWs r with
            | ':' :: r' =>
              match parseC f .val (skipWs r') with
              | some (v, r2) =>
                match parseC f .objItems (skipWs r2) with
                | some (.jobj kvs, r3) => some (.jobj ((String.mk k, v) :: kvs), r3)
                | _ => none
              | none => none
            | _ => none
          | none => none
        | _ => none
      else none

/-- Load entry point: `json.loads` as called at `ui_root.py:90`: parse one document and
require only whitespace after it; `none` models the `ValueError` raised
on malformed input. -/
def loads (s : String) : Option JValue :=
  match parseC (s.data.length + 1) .val (skipWs s.data) with
  | some (v, rest) => if skipWs rest = [] then some v else none
  | none => none

/-! ## Canonical snapshots

A snapshot is canonical when its strings are ASCII without characters
needing JSON escapes, and its objects' keys are strictly ascending
(every Python dict rendered with `sort_keys=True` reloads to this
form).  The round-trip theorems are stated for canonical snapshots. -/

/-- Printable ASCII, not a quote, not a backslash: survives JSON
serialization verbatim bytewise. -/
def goodChar (c : Char) : Bool :=
  decide (32 ≤ c.toNat ∧ c.toNat ≤ 126) && !(c = '"') && !(c = '\\')

def goodStr (s : String) : Bool := s.data.all goodChar

mutual

def canonical : JValue → Bool
  | .null => true
  | .jbool _ => true
  | .jint _ => true
  | .jstr s => goodStr s
  | .jarr xs => canonicalList xs
  | .jobj kvs => canonicalKVs kvs && keysSortedB kvs
termination_by v => sizeOf v
decreasing_by all_goals (simp_wf; try omega)

def canonicalList : List JValue → Bool
  | [] => true
  | x :: xs => canonical x && canonicalList xs
termination_by xs => sizeOf xs
decreasing_by all_goals (simp_wf; try omega)

def canonicalKVs : List (String × JValue) → Bool
  | [] => true
  | (k, v) :: t => goodStr k && canonical v && canonicalKVs t
termination_by kvs => sizeOf kvs
decreasing_by all_goals (simp_wf; try omega)

end

/-! ## Node counts: the induction measure and fuel bound -/

mutual

def nodes : JValue → Nat
  | .null => 1
  | .jbool _ => 1
  | .jint _ => 1
  | .jstr _ => 1
  | .jarr xs => 1 + nodesList xs
  | .jobj kvs => 1 + nodesKVs kvs
termination_by v => sizeOf v
decreasing_by all_goals (simp_wf; try omega)

def nodesList : List JValue → Nat
  | [] => 1
  | x :: xs => 1 + nodes x + nodesList xs
termination_by xs => sizeOf xs
decreasing_by all_goals (simp_wf; try omega)

def nodesKVs : List (String × JValue) → Nat
  | [] => 1
  | (_, v) :: t => 1 + nodes v + nodesKVs t
termination_by kvs => sizeOf kvs
decreasing_by all_goals (simp_wf; try omega)

end

/-! ## Character-class lemmas -/

theorem isDig_not_ws {c : Char} (h : isDig c = true) : isWs c = false := by
  simp only [isDig, decide_eq_true_eq] at h
  simp only [isWs, decide_eq_false_iff_not]
  omega

theorem isDig_toNat {c : Char} (h : isDig c = true) :
    48 ≤ c.toNat ∧ c.toNat ≤ 57 := by
  simpa only [isDig, decide_eq_true_eq] using h

theorem isDig_ne_of_toNat {c : Char} (h : isDig c = true)
    (c' : Char) (h' : isDig c' = false) : c ≠ c' := by
  intro heq
  subst heq
  rw [h] at h'
  cases h'

theorem digitChar_isDig (d : Nat) : isDig (digitChar d) = true := by
  unfold digitChar
  repeat' split
  all_goals decide

theorem digitChar_toNat {d : Nat} (h : d < 10) :
    (digitChar d).toNat = 48 + d := by
  interval_cases d <;> decide

/-! ## Whitespace-skipping lemmas -/

@[simp] theorem skipWs_nil : skipWs [] = [] := rfl

theorem skipWs_cons_ws {c : Char} (h : isWs c = true) (cs : List Char) :
    skipWs (c :: cs) = skipWs cs := by
  simp [skipWs, h]

theorem skipWs_cons_not {c : Char} (h : isWs c = false) (cs : List Char) :
    skipWs (c :: cs) = c :: cs := by
  simp [skipWs, h]

@[simp] theorem skipWs_nl (cs : List Char) : skipWs ('\n' :: cs) = skipWs cs :=
  skipWs_cons_ws (by decide) cs

@[simp] theorem skipWs_sp (cs : List Char) : skipWs (' ' :: cs) = skipWs cs :=
  skipWs_cons_ws (by decide) cs

@[simp] theorem skipWs_indentChars (n : Nat) (cs : List Char) :
    skipWs (indentChars n ++ cs) = skipWs cs := by
  induction n with
  | zero => rfl
  | succ n ih => simpa [indentChars, List.replicate_succ] using ih

/-! ## Digit-scanning lemmas -/

/-- The input does not begin with a digit (so a number token just before
it cannot absorb it). -/
def noDigitHead : List Char → Bool
  | [] => true
  | c :: _ => !(isDig c)

theorem parseDigits_append (ds : List Char) (rest : List Char) (acc : Nat)
    (hd : ∀ c ∈ ds, isDig c = true) (hr : noDigitHead rest = true) :
    parseDigits acc (ds ++ rest) =
      (ds.foldl (fun a c => a * 10 + (c.toNat - 48)) acc, rest) := by
  induction ds generalizing acc with
  | nil =>
    cases rest with
    | nil => rfl
    | cons c cs =>
      simp only [noDigitHead, Bool.not_eq_true'] at hr
      simp [parseDigits, hr]
  | cons c cs ih =>
    have hc : isDig c = true := hd c (by simp)
    simp only [List.cons_append, parseDigits, hc, if_true, List.foldl_cons]
    exact ih _ (fun x hx => hd x (by simp [hx]))

theorem natChars_ne_nil (n : Nat) : natChars n ≠ [] := by
  rw [natChars]
  split <;> simp

theorem natChars_all_dig (n : Nat) : ∀ c ∈ natChars n, isDig c = true := by
  induction n using Nat.strong_induction_on with
  | _ n ih =>
    rw [natChars]
    split
    · intro c hc
      rw [List.mem_singleton] at hc
      subst hc
      exact digitChar_isDig n
    · intro c hc
      rcases List.mem_append.1 hc with h | h
      · exact ih (n / 10) (Nat.div_lt_self (by omega) (by omega)) c h
      · rw [List.mem_singleton] at h
        subst h
        exact digitChar_isDig (n % 10)

theorem natChars_foldl (n : Nat) : ∀ acc : Nat,
    (natChars n).foldl (fun a c => a * 10 + (c.toNat - 48)) acc =
      acc * 10 ^ (natChars n).length + n := by
  induction n using Nat.strong_induction_on with
  | _ n ih =>
    intro acc
    rw [natChars]
    split
    · rename_i h
      simp only [List.foldl_cons, List.foldl_nil, List.length_singleton,
        pow_one]
      rw [digitChar_toNat h]
      omega
    · rename_i h
      rw [List.foldl_append, List.length_append,
        ih (n / 10) (Nat.div_lt_self (by omega) (by omega)) acc]
      simp only [List.foldl_cons, List.foldl_nil, List.length_singleton]
      rw [digitChar_toNat (Nat.mod_lt n (by omega)), pow_succ]
      have hdm := Nat.div_add_mod n 10
      set a := 10 ^ (natChars (n / 10)).length
      ring_nf
      omega

theorem parseDigits_natChars (n : Nat) (rest : List Char)
    (hr : noDigitHead rest = true) :
    parseDigits 0 (natChars n ++ rest) = (n, rest) := by
  rw [parseDigits_append _ _ _ (natChars_all_dig n) hr, natChars_foldl]
  simp

theorem natChars_head_dig (n : Nat) :
    ∃ c t, natChars n = c :: t ∧ isDig c = true := by
  rcases h : natChars n with _ | ⟨c, t⟩
  · exact absurd h (natChars_ne_nil n)
  · exact ⟨c, t, rfl, natChars_all_dig n c (by rw [h]; simp)⟩

/-! ## String-body lemmas -/

theorem parseStrBody_append (s : List Char) (rest : List Char)
    (h : ∀ c ∈ s, goodChar c = true) :
    parseStrBody (s ++ '"' :: rest) = some (s, rest) := by
  induction s with
  | nil => simp [parseStrBody]
  | cons c cs ih =>
    have hc := h c (by simp)
    simp only [goodChar, Bool.and_eq_true, Bool.not_eq_true',
      decide_eq_true_eq] at hc
    have h1 : ¬(c = '"') := by simpa using hc.1.2
    have h2 : ¬(c = '\\') := by simpa using hc.2
    simp only [List.cons_append, parseStrBody, if_neg h1, if_neg h2,
      List.append_eq, ih (fun x hx => h x (by simp [hx]))]

/-! ## Sorted-key lemmas -/

theorem keysSortedB_tail {p : String × JValue} {t : List (String × JValue)}
    (h : keysSortedB (p :: t) = true) : keysSortedB t = true := by
  cases t with
  | nil => rfl
  | cons q t' =>
    simp only [keysSortedB, Bool.and_eq_true] at h
    exact h.2

theorem sortKVs_eq_self {l : List (String × JValue)}
    (h : keysSortedB l = true) : sortKVs l = l := by
  induction l with
  | nil => rfl
  | cons p t ih =>
    rw [sortKVs, ih (keysSortedB_tail h)]
    cases t with
    | nil => rfl
    | cons q t' =>
      simp only [keysSortedB, Bool.and_eq_true] at h
      simp [insKV, h.1]

/-! ## Head and shape facts about the serializer's output -/

/-- Characters that can begin a serialized value. -/
def starter (c : Char) : Bool :=
  c = 'n' || c = 't' || c = 'f' || c = '"' || c = '-' || c = '[' || c = '{' || isDig c

theorem starter_not_ws {c : Char} (h : starter c = true) : isWs c = false := by
  simp only [starter, Bool.or_eq_true, decide_eq_true_eq] at h
  rcases h with ((((((h | h) | h) | h) | h) | h) | h) | h
  all_goals first
  | (subst h; decide)
  | exact isDig_not_ws h

theorem starter_ne_rbrack {c : Char} (h : starter c = true) : c ≠ ']' := by
  simp only [starter, Bool.or_eq_true, decide_eq_true_eq] at h
  rcases h with ((((((h | h) | h) | h) | h) | h) | h) | h
  all_goals first
  | (subst h; decide)
  | exact isDig_ne_of_toNat h _ (by decide)

theorem starter_ne_rbrace {c : Char} (h : starter c = true) : c ≠ '}' := by
  simp only [starter, Bool.or_eq_true, decide_eq_true_eq] at h
  rcases h with ((((((h | h) | h) | h) | h) | h) | h) | h
  all_goals first
  | (subst h; decide)
  | exact isDig_ne_of_toNat h _ (by decide)

theorem intChars_head (i : Int) :
    ∃ c t, intChars i = c :: t ∧ starter c = true := by
  unfold intChars
  split
  · exact ⟨'-', natChars i.natAbs, rfl, by decide⟩
  · obtain ⟨c, t, hct, hdig⟩ := natChars_head_dig i.toNat
    exact ⟨c, t, hct, by simp [starter, hdig]⟩

theorem dumpVal_head (v : JValue) (n : Nat) :
    ∃ c t, dumpVal v n = c :: t ∧ starter c = true := by
  cases v with
  | null =>
    simp only [dumpVal]
    exact ⟨'n', _, rfl, by decide⟩
  | jbool b =>
    cases b with
    | false =>
      simp only [dumpVal]
      exact ⟨'f', _, rfl, by decide⟩
    | true =>
      simp only [dumpVal]
      exact ⟨'t', _, rfl, by decide⟩
  | jint i =>
    obtain ⟨c, t, hct, hst⟩ := intChars_head i
    simp only [dumpVal, hct]
    exact ⟨c, t, rfl, hst⟩
  | jstr s =>
    simp only [dumpVal]
    exact ⟨'"', _, rfl, by decide⟩
  | jarr xs =>
    cases xs with
    | nil =>
      simp only [dumpVal]
      exact ⟨'[', _, rfl, by decide⟩
    | cons x xs' =>
      simp only [dumpVal]
      exact ⟨'[', _, rfl, by decide⟩
  | jobj kvs =>
    simp only [dumpVal]
    split
    · exact ⟨'{', _, rfl, by decide⟩
    · exact ⟨'{', _, rfl, by decide⟩

theorem skipWs_dumpVal (v : JValue) (n : Nat) (rest : List Char) :
    skipWs (dumpVal v n ++ rest) = dumpVal v n ++ rest := by
  obtain ⟨c, t, hct, hst⟩ := dumpVal_head v n
  rw [hct, List.cons_append, skipWs_cons_not (starter_not_ws hst)]

theorem noDigitHead_arrRest (xs : List JValue) (n : Nat) (L : List Char) :
    noDigitHead (dumpArrRest xs n ++ '\n' :: L) = true := by
  cases xs <;> simp [dumpArrRest, noDigitHead, isDig]

theorem noDigitHead_objRest (kvs : List (String × JValue)) (n : Nat)
    (L : List Char) :
    noDigitHead (dumpObjRest kvs n ++ '\n' :: L) = true := by
  rcases kvs with _ | ⟨⟨k, v⟩, t⟩ <;> simp [dumpObjRest, noDigitHead, isDig]

/-! ## Canonicality destructors -/

theorem canonical_arr {xs : List JValue} (h : canonical (.jarr xs) = true) :
    canonicalList xs = true := by
  rwa [canonical] at h

theorem canonical_obj {kvs : List (String × JValue)}
    (h : canonical (.jobj kvs) = true) :
    canonicalKVs kvs = true ∧ keysSortedB kvs = true := by
  rw [canonical, Bool.and_eq_true] at h
  exact h

theorem canonicalList_cons {x : JValue} {xs : List JValue}
    (h : canonicalList (x :: xs) = true) :
    canonical x = true ∧ canonicalList xs = true := by
  rw [canonicalList, Bool.and_eq_true] at h
  exact h

theorem canonicalKVs_cons {k : String} {v : JValue}
    {t : List (String × JValue)} (h : canonicalKVs ((k, v) :: t) = true) :
    goodStr k = true ∧ canonical v = true ∧ canonicalKVs t = true := by
  rw [canonicalKVs, Bool.and_eq_true, Bool.and_eq_true] at h
  exact ⟨h.1.1, h.1.2, h.2⟩

/-! ## Node counts are positive -/

theorem nodes_pos (v : JValue) : 1 ≤ nodes v := by
  cases v <;> simp [nodes]

theorem nodesList_pos (xs : List JValue) : 1 ≤ nodesList xs := by
  cases xs <;> simp [nodesList] <;> omega

theorem nodesKVs_pos (kvs : List (String × JValue)) : 1 ≤ nodesKVs kvs := by
  rcases kvs with _ | ⟨⟨k, v⟩, t⟩ <;> simp [nodesKVs] <;> omega

/-! ## The round-trip induction

`PV N`, `PA N`, `PO N`: the scanner reads back exactly what the
serializer wrote — for values, array item lists, and object item lists
of at most `N` nodes — given fuel at least the node count and a
continuation that cannot extend a number token. -/

def PV (N : Nat) : Prop :=
  ∀ v : JValue, ∀ f n : Nat, ∀ rest : List Char,
    nodes v ≤ N → canonical v = true → nodes v ≤ f →
    noDigitHead rest = true →
    parseC f .val (dumpVal v n ++ rest) = some (v, rest)

def PA (N : Nat) : Prop :=
  ∀ xs : List JValue, ∀ f n m : Nat, ∀ rest : List Char,
    nodesList xs ≤ N → canonicalList xs = true → nodesList xs ≤ f →
    noDigitHead rest = true →
    parseC f .arrItems
        (skipWs (dumpArrRest xs n ++ '\n' :: (indentChars m ++ (']' :: rest))))
      = some (.jarr xs, rest)

def PO (N : Nat) : Prop :=
  ∀ kvs : List (String × JValue), ∀ f n m : Nat, ∀ rest : List Char,
    nodesKVs kvs ≤ N → canonicalKVs kvs = true → nodesKVs kvs ≤ f →
    noDigitHead rest = true →
    parseC f .objItems
        (skipWs (dumpObjRest kvs n ++ '\n' :: (indentChars m ++ ('}' :: rest))))
      = some (.jobj kvs, rest)

theorem stepPV (N : Nat) (ihPV : PV N) (ihPA : PA N) (ihPO : PO N) :
    PV (N + 1) := by
  intro v f n rest hN hcan hf hrest
  obtain ⟨f', rfl⟩ : ∃ f', f = f' + 1 :=
    ⟨f - 1, by have := nodes_pos v; omega⟩
  cases v with
  | null =>
    simp [dumpVal, parseC]
  | jbool b =>
    cases b <;> simp [dumpVal, parseC]
  | jint i =>
    simp only [dumpVal, intChars]
    split
    · rename_i hneg
      obtain ⟨d, t, hdt, hdig⟩ := natChars_head_dig i.natAbs
      have hpd : parseDigits 0 (natChars i.natAbs ++ rest) = (i.natAbs, rest) :=
        parseDigits_natChars _ _ hrest
      rw [hdt] at hpd
      rw [hdt]
      rw [List.cons_append] at hpd
      simp only [List.cons_append, List.nil_append, parseC]
      simp only [if_neg (by decide : ¬('-' = 'n')),
        if_neg (by decide : ¬('-' = 't')), if_neg (by decide : ¬('-' = 'f')),
        if_neg (by decide : ¬('-' = '"')), eq_self_iff_true, if_true]
      simp only [hpd, hdig, if_true]
      have hia : -((i.natAbs : Int)) = i := by omega
      rw [hia]
    · rename_i hpos
      obtain ⟨d, t, hdt, hdig⟩ := natChars_head_dig i.toNat
      have hpd : parseDigits 0 (natChars i.toNat ++ rest) = (i.toNat, rest) :=
        parseDigits_natChars _ _ hrest
      rw [hdt] at hpd
      rw [hdt]
      rw [List.cons_append] at hpd
      have hne := fun c' h' => isDig_ne_of_toNat hdig c' h'
      simp only [List.cons_append, List.nil_append, parseC]
      simp only [if_neg (hne 'n' (by decide)), if_neg (hne 't' (by decide)),
        if_neg (hne 'f' (by decide)), if_neg (hne '"' (by decide)),
        if_neg (hne '-' (by decide)), if_neg (hne '[' (by decide)),
        if_neg (hne '{' (by decide)), hdig, if_true]
      simp only [hpd]
      have hit : ((i.toNat : Int)) = i := by omega
      rw [hit]
  | jstr s =>
    have hgood : ∀ c ∈ s.data, goodChar c = true := by
      have hgs := hcan
      rw [canonical, goodStr] at hgs
      exact fun c hc => List.all_eq_true.mp hgs c hc
    simp only [dumpVal, List.cons_append, List.nil_append, List.append_assoc,
      List.singleton_append]
    simp only [parseC]
    simp only [if_neg (by decide : ¬('"' = 'n')),
      if_neg (by decide : ¬('"' = 't')), if_neg (by decide : ¬('"' = 'f')),
      eq_self_iff_true, if_true]
    rw [parseStrBody_append s.data rest hgood]
  | jarr xs =>
    cases xs with
    | nil =>
      simp only [dumpVal, List.cons_append, List.nil_append,
        List.singleton_append, parseC]
      simp only [if_neg (by decide : ¬('[' = 'n')),
        if_neg (by decide : ¬('[' = 't')), if_neg (by decide : ¬('[' = 'f')),
        if_neg (by decide : ¬('[' = '"')), if_neg (by decide : ¬('[' = '-')),
        eq_self_iff_true, if_true]
      rw [skipWs_cons_not (by decide)]
      rfl
    | cons x xs' =>
      obtain ⟨hcx, hcxs⟩ := canonicalList_cons (canonical_arr hcan)
      have hsz : nodes (JValue.jarr (x :: xs')) = 2 + nodes x + nodesList xs' := by
        rw [nodes, nodesList]
        omega
      have hnx : nodes x ≤ N := by rw [hsz] at hN; omega
      have hnxs : nodesList xs' ≤ N := by rw [hsz] at hN; omega
      have hfx : nodes x ≤ f' := by rw [hsz] at hf; omega
      have hfxs : nodesList xs' ≤ f' := by rw [hsz] at hf; omega
      simp only [dumpVal, List.cons_append, List.nil_append,
        List.append_assoc, List.singleton_append]
      simp only [parseC]
      simp only [if_neg (by decide : ¬('[' = 'n')),
        if_neg (by decide : ¬('[' = 't')), if_neg (by decide : ¬('[' = 'f')),
        if_neg (by decide : ¬('[' = '"')), if_neg (by decide : ¬('[' = '-')),
        eq_self_iff_true, if_true]
      rw [skipWs_nl, skipWs_indentChars, skipWs_dumpVal]
      have hrest1 : noDigitHead
          (dumpArrRest xs' (n + 2) ++ '\n' :: (indentChars n ++ (']' :: rest)))
            = true := noDigitHead_arrRest _ _ _
      split
      · rename_i ds hds
        exfalso
        obtain ⟨e, t, het, hst⟩ := dumpVal_head x (n + 2)
        rw [het, List.cons_append] at hds
        exact starter_ne_rbrack hst (List.cons.injEq .. ▸ hds).1
      · have h1 := ihPV x f' (n + 2)
          (dumpArrRest xs' (n + 2) ++ '\n' :: (indentChars n ++ (']' :: rest)))
          hnx hcx hfx hrest1
        have h2 := ihPA xs' f' (n + 2) n rest hnxs hcxs hfxs hrest
        simp [h1, h2]
  | jobj kvs =>
    obtain ⟨hckvs, hsorted⟩ := canonical_obj hcan
    have hss : sortKVs kvs = kvs := sortKVs_eq_self hsorted
    simp only [dumpVal]
    split
    · rename_i hnil
      rw [hss] at hnil
      subst hnil
      simp only [List.cons_append, List.nil_append, List.singleton_append,
        parseC]
      simp only [if_neg (by decide : ¬('{' = 'n')),
        if_neg (by decide : ¬('{' = 't')), if_neg (by decide : ¬('{' = 'f')),
        if_neg (by decide : ¬('{' = '"')), if_neg (by decide : ¬('{' = '-')),
        if_neg (by decide : ¬('{' = '[')), eq_self_iff_true, if_true]
      rw [skipWs_cons_not (by decide)]
      rfl
    · rename_i k v t hcons
      rw [hss] at hcons
      subst hcons
      obtain ⟨hgk, hcv, hct⟩ := canonicalKVs_cons hckvs
      have hgood : ∀ c ∈ k.data, goodChar c = true := by
        rw [goodStr] at hgk
        exact fun c hc => List.all_eq_true.mp hgk c hc
      have hsz : nodes (JValue.jobj ((k, v) :: t)) =
          2 + nodes v + nodesKVs t := by
        rw [nodes, nodesKVs]
        omega
      have hnv : nodes v ≤ N := by rw [hsz] at hN; omega
      have hnt : nodesKVs t ≤ N := by rw [hsz] at hN; omega
      have hfv : nodes v ≤ f' := by rw [hsz] at hf; omega
      have hft : nodesKVs t ≤ f' := by rw [hsz] at hf; omega
      simp only [dumpKV, List.cons_append, List.nil_append,
        List.append_assoc, List.singleton_append]
      simp only [parseC]
      simp only [if_neg (by decide : ¬('{' = 'n')),
        if_neg (by decide : ¬('{' = 't')), if_neg (by decide : ¬('{' = 'f')),
        if_neg (by decide : ¬('{' = '"')), if_neg (by decide : ¬('{' = '-')),
        if_neg (by decide : ¬('{' = '[')), eq_self_iff_true, if_true]
      rw [skipWs_nl, skipWs_indentChars, skipWs_cons_not (by decide)]
      have hrest1 : noDigitHead
          (dumpObjRest t (n + 2) ++ '\n' :: (indentChars n ++ ('}' :: rest)))
            = true := noDigitHead_objRest _ _ _
      have h1 := parseStrBody_append k.data
        (':' :: ' ' :: (dumpVal v (n + 2) ++
          (dumpObjRest t (n + 2) ++ '\n' :: (indentChars n ++ ('}' :: rest)))))
        hgood
      have h2 := ihPV v f' (n + 2)
        (dumpObjRest t (n + 2) ++ '\n' :: (indentChars n ++ ('}' :: rest)))
        hnv hcv hfv hrest1
      have h3 := ihPO t f' (n + 2) n rest hnt hct hft hrest
      simp [h1, h2, h3, skipWs_cons_not (by decide : isWs ':' = false),
        skipWs_dumpVal]

theorem stepPA (N : Nat) (ihPV : PV N) (ihPA : PA N) : PA (N + 1) := by
  intro xs f n m rest hN hcan hf hrest
  obtain ⟨f', rfl⟩ : ∃ f', f = f' + 1 :=
    ⟨f - 1, by have := nodesList_pos xs; omega⟩
  cases xs with
  | nil =>
    simp only [dumpArrRest, List.nil_append, skipWs_nl, skipWs_indentChars]
    rw [skipWs_cons_not (by decide)]
    simp [parseC]
  | cons x xs' =>
    obtain ⟨hcx, hcxs⟩ := canonicalList_cons hcan
    have hsz : nodesList (x :: xs') = 1 + nodes x + nodesList xs' := by
      rw [nodesList]
    have hnx : nodes x ≤ N := by rw [hsz] at hN; omega
    have hnxs : nodesList xs' ≤ N := by rw [hsz] at hN; omega
    have hfx : nodes x ≤ f' := by rw [hsz] at hf; omega
    have hfxs : nodesList xs' ≤ f' := by rw [hsz] at hf; omega
    simp only [dumpArrRest, List.cons_append, List.nil_append,
      List.append_assoc]
    rw [skipWs_cons_not (by decide)]
    simp only [parseC]
    simp only [if_neg (by decide : ¬(',' = ']')), eq_self_iff_true, if_true]
    rw [skipWs_sp, skipWs_nl, skipWs_indentChars, skipWs_dumpVal]
    have hrest1 : noDigitHead
        (dumpArrRest xs' n ++ '\n' :: (indentChars m ++ (']' :: rest)))
          = true := noDigitHead_arrRest _ _ _
    have h1 := ihPV x f' n
      (dumpArrRest xs' n ++ '\n' :: (indentChars m ++ (']' :: rest)))
      hnx hcx hfx hrest1
    have h2 := ihPA xs' f' n m rest hnxs hcxs hfxs hrest
    simp [h1, h2]

theorem stepPO (N : Nat) (ihPV : PV N) (ihPO : PO N) : PO (N + 1) := by
  intro kvs f n m rest hN hcan hf hrest
  obtain ⟨f', rfl⟩ : ∃ f', f = f' + 1 :=
    ⟨f - 1, by have := nodesKVs_pos kvs; omega⟩
  rcases kvs with _ | ⟨⟨k, v⟩, t⟩
  · simp only [dumpObjRest, List.nil_append, skipWs_nl, skipWs_indentChars]
    rw [skipWs_cons_not (by decide)]
    simp [parseC]
  · obtain ⟨hgk, hcv, hct⟩ := canonicalKVs_cons hcan
    have hgood : ∀ c ∈ k.data, goodChar c = true := by
      rw [goodStr] at hgk
      exact fun c hc => List.all_eq_true.mp hgk c hc
    have hsz : nodesKVs ((k, v) :: t) = 1 + nodes v + nodesKVs t := by
      rw [nodesKVs]
    have hnv : nodes v ≤ N := by rw [hsz] at hN; omega
    have hnt : nodesKVs t ≤ N := by rw [hsz] at hN; omega
    have hfv : nodes v ≤ f' := by rw [hsz] at hf; omega
    have hft : nodesKVs t ≤ f' := by rw [hsz] at hf; omega
    simp only [dumpObjRest, dumpKV, List.cons_append, List.nil_append,
      List.append_assoc]
    rw [skipWs_cons_not (by decide)]
    simp only [parseC]
    simp only [if_neg (by decide : ¬(',' = '}')), eq_self_iff_true, if_true]
    rw [skipWs_sp, skipWs_nl, skipWs_indentChars, skipWs_cons_not (by decide)]
    have hrest1 : noDigitHead
        (dumpObjRest t n ++ '\n' :: (indentChars m ++ ('}' :: rest)))
          = true := noDigitHead_objRest _ _ _
    have h1 := parseStrBody_append k.data
      (':' :: ' ' :: (dumpVal v n ++
        (dumpObjRest t n ++ '\n' :: (indentChars m ++ ('}' :: rest)))))
      hgood
    have h2 := ihPV v f' n
      (dumpObjRest t n ++ '\n' :: (indentChars m ++ ('}' :: rest)))
      hnv hcv hfv hrest1
    have h3 := ihPO t f' n m rest hnt hct hft hrest
    simp [h1, h2, h3, skipWs_cons_not (by decide : isWs ':' = false),
      skipWs_dumpVal]

theorem mainParse : ∀ N, PV N ∧ PA N ∧ PO N := by
  intro N
  induction N with
  | zero =>
    refine ⟨?_, ?_, ?_⟩
    · intro v _ _ _ hN
      exact absurd hN (by have := nodes_pos v; omega)
    · intro xs _ _ _ _ hN
      exact absurd hN (by have := nodesList_pos xs; omega)
    · intro kvs _ _ _ _ hN
      exact absurd hN (by have := nodesKVs_pos kvs; omega)
  | succ N ih =>
    exact ⟨stepPV N ih.1 ih.2.1 ih.2.2, stepPA N ih.1 ih.2.1,
      stepPO N ih.1 ih.2.2⟩

/-- The scanner reads back exactly the serializer's output, leaving the
continuation untouched. -/
theorem parseC_dumpVal (v : JValue) (f n : Nat) (rest : List Char)
    (hcan : canonical v = true) (hf : nodes v ≤ f)
    (hrest : noDigitHead rest = true) :
    parseC f .val (dumpVal v n ++ rest) = some (v, rest) :=
  (mainParse (nodes v)).1 v f n rest le_rfl hcan hf hrest

/-! ## Fuel justification: node counts are bounded by output length -/

theorem lenMain : ∀ N : Nat,
    (∀ v : JValue, ∀ n, nodes v ≤ N → canonical v = true →
      nodes v ≤ (dumpVal v n).length)
    ∧ (∀ xs : List JValue, ∀ n, nodesList xs ≤ N → canonicalList xs = true →
      nodesList xs ≤ (dumpArrRest xs n).length + 1)
    ∧ (∀ kvs : List (String × JValue), ∀ n, nodesKVs kvs ≤ N →
      canonicalKVs kvs = true →
      nodesKVs kvs ≤ (dumpObjRest kvs n).length + 1) := by
  intro N
  induction N with
  | zero =>
    refine ⟨?_, ?_, ?_⟩
    · intro v _ hN
      exact absurd hN (by have := nodes_pos v; omega)
    · intro xs _ hN
      exact absurd hN (by have := nodesList_pos xs; omega)
    · intro kvs _ hN
      exact absurd hN (by have := nodesKVs_pos kvs; omega)
  | succ N ih =>
    obtain ⟨ihV, ihA, ihO⟩ := ih
    refine ⟨?_, ?_, ?_⟩
    · intro v n hN hcan
      cases v with
      | null => simp [dumpVal, nodes]
      | jbool b => cases b <;> simp [dumpVal, nodes]
      | jint i =>
        have hlen : 1 ≤ (intChars i).length := by
          unfold intChars
          split
          · simp
          · have := natChars_ne_nil i.toNat
            have := List.length_pos.mpr this
            omega
        simp only [dumpVal, nodes]
        omega
      | jstr s => simp [dumpVal, nodes]
      | jarr xs =>
        cases xs with
        | nil => simp [dumpVal, nodes, nodesList]
        | cons x xs' =>
          obtain ⟨hcx, hcxs⟩ := canonicalList_cons (canonical_arr hcan)
          have hsz : nodes (JValue.jarr (x :: xs')) =
              2 + nodes x + nodesList xs' := by
            rw [nodes, nodesList]
            omega
          have h1 : nodes x ≤ (dumpVal x (n + 2)).length :=
            ihV x (n + 2) (by omega) hcx
          have h2 : nodesList xs' ≤ (dumpArrRest xs' (n + 2)).length + 1 :=
            ihA xs' (n + 2) (by omega) hcxs
          rw [hsz]
          simp only [dumpVal, List.length_cons, List.length_append,
            indentChars, List.length_replicate, List.length_singleton]
          omega
      | jobj kvs =>
        obtain ⟨hckvs, hsorted⟩ := canonical_obj hcan
        have hss : sortKVs kvs = kvs := sortKVs_eq_self hsorted
        simp only [dumpVal]
        split
        · rename_i hnil
          rw [hss] at hnil
          subst hnil
          simp [nodes, nodesKVs]
        · rename_i k v t hcons
          rw [hss] at hcons
          subst hcons
          obtain ⟨hgk, hcv, hct⟩ := canonicalKVs_cons hckvs
          have hsz : nodes (JValue.jobj ((k, v) :: t)) =
              2 + nodes v + nodesKVs t := by
            rw [nodes, nodesKVs]
            omega
          have h1 : nodes v ≤ (dumpVal v (n + 2)).length :=
            ihV v (n + 2) (by omega) hcv
          have h2 : nodesKVs t ≤ (dumpObjRest t (n + 2)).length + 1 :=
            ihO t (n + 2) (by omega) hct
          rw [hsz]
          simp only [dumpKV, List.length_cons, List.length_append,
            indentChars, List.length_replicate, List.length_singleton]
          omega
    · intro xs n hN hcan
      cases xs with
      | nil => simp [dumpArrRest, nodesList]
      | cons x xs' =>
        obtain ⟨hcx, hcxs⟩ := canonicalList_cons hcan
        have hsz : nodesList (x :: xs') = 1 + nodes x + nodesList xs' := by
          rw [nodesList]
        have h1 : nodes x ≤ (dumpVal x n).length := ihV x n (by omega) hcx
        have h2 : nodesList xs' ≤ (dumpArrRest xs' n).length + 1 :=
          ihA xs' n (by omega) hcxs
        rw [hsz]
        simp only [dumpArrRest, List.length_cons, List.length_append,
          indentChars, List.length_replicate]
        omega
    · intro kvs n hN hcan
      rcases kvs with _ | ⟨⟨k, v⟩, t⟩
      · simp [dumpObjRest, nodesKVs]
      · obtain ⟨hgk, hcv, hct⟩ := canonicalKVs_cons hcan
        have hsz : nodesKVs ((k, v) :: t) = 1 + nodes v + nodesKVs t := by
          rw [nodesKVs]
        have h1 : nodes v ≤ (dumpVal v n).length := ihV v n (by omega) hcv
        have h2 : nodesKVs t ≤ (dumpObjRest t n).length + 1 :=
          ihO t n (by omega) hct
        rw [hsz]
        simp only [dumpObjRest, dumpKV, List.length_cons, List.length_append,
          indentChars, List.length_replicate]
        omega

theorem nodes_le_dumpVal (v : JValue) (n : Nat) (hcan : canonical v = true) :
    nodes v ≤ (dumpVal v n).length :=
  (lenMain (nodes v)).1 v n le_rfl hcan

/-! ## The round trip at the `loads`/`dumps` level -/

/-- Reloading a dump: `json.loads (json.dumps v)` returns `v` for canonical snapshots. -/
theorem loads_dumps (v : JValue) (hcan : canonical v = true) :
    loads (dumps v) = some v := by
  have hfuel : nodes v ≤ (dumpVal v 0).length + 1 :=
    le_trans (nodes_le_dumpVal v 0 hcan) (by omega)
  have hp := parseC_dumpVal v ((dumpVal v 0).length + 1) 0 [] hcan hfuel
    (by decide)
  rw [List.append_nil] at hp
  have hskip : skipWs (dumpVal v 0) = dumpVal v 0 := by
    have h := skipWs_dumpVal v 0 []
    rwa [List.append_nil] at h
  unfold loads dumps
  rw [show (String.mk (dumpVal v 0)).data = dumpVal v 0 from rfl, hskip, hp]
  rfl

/-- The configuration-file content (`dumps` plus the trailing newline
written at `ui_root.py:72`) also reloads to the snapshot. -/
theorem loads_dumps_newline (v : JValue) (hcan : canonical v = true) :
    loads (String.mk (dumpVal v 0 ++ ['\n'])) = some v := by
  have hfuel : nodes v ≤ (dumpVal v 0 ++ ['\n']).length + 1 := by
    have := nodes_le_dumpVal v 0 hcan
    simp only [List.length_append, List.length_singleton]
    omega
  have hp := parseC_dumpVal v ((dumpVal v 0 ++ ['\n']).length + 1) 0 ['\n']
    hcan hfuel (by decide)
  unfold loads
  rw [show (String.mk (dumpVal v 0 ++ ['\n'])).data = dumpVal v 0 ++ ['\n']
      from rfl,
    skipWs_dumpVal, hp]
  rfl

/-! ## The serializer's output never ends in a newline

So the file written by `saveconfig` — the document plus one `"\n"` —
ends in exactly one trailing newline. -/

theorem natChars_getLast_dig (n : Nat) :
    ∃ d, (natChars n).getLast? = some d ∧ isDig d = true := by
  rw [natChars]
  split
  · exact ⟨digitChar n, by simp, digitChar_isDig n⟩
  · exact ⟨digitChar (n % 10), List.getLast?_concat _, digitChar_isDig _⟩

theorem intChars_getLast_ne_nl (i : Int) :
    (intChars i).getLast? ≠ some '\n' := by
  unfold intChars
  obtain ⟨d, hd, hdig⟩ := natChars_getLast_dig i.natAbs
  obtain ⟨d', hd', hdig'⟩ := natChars_getLast_dig i.toNat
  split
  · rw [show ('-' :: natChars i.natAbs) = ['-'] ++ natChars i.natAbs from rfl,
      List.getLast?_append, hd]
    intro hcontra
    have : d = '\n' := by simpa [Option.or] using hcontra
    subst this
    exact absurd hdig (by decide)
  · rw [hd']
    intro hcontra
    have : d' = '\n' := by simpa using hcontra
    subst this
    exact absurd hdig' (by decide)

theorem dumpVal_getLast_ne_nl (v : JValue) (n : Nat) :
    (dumpVal v n).getLast? ≠ some '\n' := by
  cases v with
  | null =>
    rw [show dumpVal .null n = ['n', 'u', 'l', 'l'] by simp [dumpVal]]
    decide
  | jbool b =>
    cases b with
    | false =>
      rw [show dumpVal (.jbool false) n = ['f', 'a', 'l', 's', 'e'] by
        simp [dumpVal]]
      decide
    | true =>
      rw [show dumpVal (.jbool true) n = ['t', 'r', 'u', 'e'] by
        simp [dumpVal]]
      decide
  | jint i =>
    rw [show dumpVal (.jint i) n = intChars i by simp [dumpVal]]
    exact intChars_getLast_ne_nl i
  | jstr s =>
    rw [show dumpVal (.jstr s) n = ('"' :: s.data) ++ ['"'] by
        simp [dumpVal],
      List.getLast?_concat]
    decide
  | jarr xs =>
    cases xs with
    | nil =>
      rw [show dumpVal (.jarr []) n = ['['] ++ [']'] by simp [dumpVal],
        List.getLast?_concat]
      decide
    | cons x xs' =>
      rw [show dumpVal (.jarr (x :: xs')) n =
          ('[' :: '\n' :: (indentChars (n + 2) ++ (dumpVal x (n + 2) ++
            (dumpArrRest xs' (n + 2) ++ '\n' :: indentChars n)))) ++ [']'] by
          simp [dumpVal, List.cons_append, List.append_assoc],
        List.getLast?_concat]
      decide
  | jobj kvs =>
    simp only [dumpVal]
    split
    · rw [show (['{', '}'] : List Char) = ['{'] ++ ['}'] from rfl,
        List.getLast?_concat]
      decide
    · rename_i k v' t hcons
      rw [show ('{' :: '\n' :: (indentChars (n + 2) ++ (dumpKV k v' (n + 2) ++
          (dumpObjRest t (n + 2) ++ '\n' :: (indentChars n ++ ['}']))))) =
          ('{' :: '\n' :: (indentChars (n + 2) ++ (dumpKV k v' (n + 2) ++
            (dumpObjRest t (n + 2) ++ '\n' :: indentChars n)))) ++ ['}'] by
          simp [List.cons_append, List.append_assoc],
        List.getLast?_concat]
      decide

/-- Holds when `l` ends in exactly one `'\n'`: it is some list not ending in a
newline, followed by a single newline. -/
def endsWithOneNl (l : List Char) : Prop :=
  ∃ l', l = l' ++ ['\n'] ∧ l'.getLast? ≠ some '\n'

/-! ## The insertion sort really sorts (ascending keys)

Supports the "object keys sorted" part of the save-format contract. -/

theorem charListLt_asymm (a : List Char) :
    ∀ b, charListLt a b = true → charListLt b a = false := by
  induction a with
  | nil =>
    intro b h
    cases b with
    | nil => exact absurd h (by simp [charListLt])
    | cons y ys => simp [charListLt]
  | cons x xs ih =>
    intro b h
    cases b with
    | nil => exact absurd h (by simp [charListLt])
    | cons y ys =>
      rw [charListLt] at h ⊢
      by_cases h1 : x.toNat < y.toNat
      · rw [if_neg (by omega), if_pos h1]
      · by_cases h2 : y.toNat < x.toNat
        · rw [if_neg h1, if_pos h2] at h
          cases h
        · rw [if_neg h1, if_neg h2] at h
          rw [if_neg h2, if_neg h1]
          exact ih ys h

theorem strLt_asymm {a b : String} (h : strLt a b = true) :
    strLt b a = false :=
  charListLt_asymm a.data b.data h

/-- Keys ascending, non-strictly (no later key is smaller). -/
def keysSortedLe : List (String × JValue) → Bool
  | [] => true
  | [_] => true
  | p :: q :: t => !(strLt q.1 p.1) && keysSortedLe (q :: t)

theorem keysSortedLe_cons_of (q : String × JValue)
    (l : List (String × JValue)) (hl : keysSortedLe l = true)
    (hhead : ∀ r t', l = r :: t' → strLt r.1 q.1 = false) :
    keysSortedLe (q :: l) = true := by
  cases l with
  | nil => rfl
  | cons r t' =>
    rw [keysSortedLe, Bool.and_eq_true]
    exact ⟨by rw [hhead r t' rfl]; rfl, hl⟩

theorem insKV_head_cases (p : String × JValue)
    (t : List (String × JValue)) :
    insKV p t = p :: t ∨
      ∃ r t', t = r :: t' ∧ insKV p t = r :: insKV p t' := by
  cases t with
  | nil => exact Or.inl rfl
  | cons r t' =>
    rw [insKV]
    split
    · exact Or.inl rfl
    · exact Or.inr ⟨r, t', rfl, rfl⟩

theorem keysSortedLe_tail {p : String × JValue}
    {t : List (String × JValue)} (h : keysSortedLe (p :: t) = true) :
    keysSortedLe t = true := by
  cases t with
  | nil => rfl
  | cons q t' =>
    rw [keysSortedLe, Bool.and_eq_true] at h
    exact h.2

theorem insKV_sorted (p : String × JValue) :
    ∀ u, keysSortedLe u = true → keysSortedLe (insKV p u) = true := by
  intro u
  induction u with
  | nil => intro _; rfl
  | cons q u' ih =>
    intro h
    rw [insKV]
    split
    · rename_i hlt
      exact keysSortedLe_cons_of p (q :: u') h
        (fun r t' hrt => by
          rw [show r = q from (List.cons.injEq .. ▸ hrt).1.symm]
          exact strLt_asymm hlt)
    · rename_i hnlt
      have hple : strLt p.1 q.1 = false := by
        rcases hb : strLt p.1 q.1 with _ | _
        · rfl
        · exact absurd hb hnlt
      have hu' := ih (keysSortedLe_tail h)
      refine keysSortedLe_cons_of q (insKV p u') hu' ?_
      intro r t' hrt
      rcases insKV_head_cases p u' with hcase | ⟨r₀, t₀, hu0, hcase⟩
      · rw [hcase] at hrt
        rw [show r = p from (List.cons.injEq .. ▸ hrt).1.symm]
        exact hple
      · rw [hcase] at hrt
        rw [show r = r₀ from (List.cons.injEq .. ▸ hrt).1.symm]
        rw [hu0, keysSortedLe, Bool.and_eq_true] at h
        have := h.1
        rwa [Bool.not_eq_true'] at this

/-- Effect of `sort_keys=True`: the item list every object is rendered from is in
ascending key order. -/
theorem sortKVs_sorted (l : List (String × JValue)) :
    keysSortedLe (sortKVs l) = true := by
  induction l with
  | nil => rfl
  | cons p t ih => exact insKV_sorted p (sortKVs t) ih

/-! ## The OS file layer

`ui_command_saveconfig` works through `shutil.move`, `open(.., "w+")`,
`os.fchmod` and `file.write`; restore through `os.path.isfile` and
`open(.., "r")`.  The filesystem is a map from paths to file records
(content and permission mode), and the save path is embedded as the
exact sequence of file operations the source performs, replayed over
that map. -/

structure FileRec where
  content : String
  mode : Nat
deriving DecidableEq

abbrev FS := String → Option FileRec

def fsSet (fs : FS) (p : String) (r : Option FileRec) : FS :=
  fun q => if q = p then r else fs q

/-- The mode `stat.S_IRUSR | stat.S_IWUSR` = 0o600 = 384: owner read/write only. -/
def ownerRW : Nat := 384

/-- Mode of a freshly `open(.., "w+")`-created file before any `fchmod`
(0o666, the worst case before the umask). Modelled from the OS contract;
the exact value never matters, only that `fchmod` replaces it. -/
def defaultCreateMode : Nat := 438

inductive FileOp where
  | move : String → String → FileOp
  | openW : String → FileOp
  | fchmod : String → Nat → FileOp
  | write : String → String → FileOp
deriving DecidableEq

/-- Effect of one file operation on the filesystem.  `move` models
`shutil.move` on an existing regular file (rename, silently replacing
the destination); `openW` models `open(p, "w+")` (create or truncate);
`fchmod`/`write` act on the file at `p`. -/
def applyFileOp (fs : FS) : FileOp → FS
  | .move src dst =>
    match fs src with
    | some r => fsSet (fsSet fs src none) dst (some r)
    | none => fs
  | .openW p => fsSet fs p (some ⟨"", defaultCreateMode⟩)
  | .fchmod p m =>
    match fs p with
    | some r => fsSet fs p (some ⟨r.content, m⟩)
    | none => fs
  | .write p d =>
    match fs p with
    | some r => fsSet fs p (some ⟨r.content ++ d, r.mode⟩)
    | none => fs

def runTrace (fs : FS) (t : List FileOp) : FS := t.foldl applyFileOp fs

/-- Modelled from the OS contract of `os.path.expanduser`: a leading
`"~"` (alone or before a `/`) is replaced by the invoking user's home
directory; other paths pass through unchanged.  (`~user` lookups are
outside the model.) -/
def expanduser (home : String) (p : String) : String :=
  match p.data with
  | '~' :: rest =>
    if rest = [] ∨ rest.head? = some '/' then String.mk (home.data ++ rest)
    else p
  | _ => p

/-- Python's `backupfile.split('/')[-1]` at `ui_root.py:65`. -/
def lastSlashComponent (s : String) : String := (s.splitOn "/").getLastD s

/-! ## The Backend Handle (rtslib `RTSRoot`) -/

/-- Modelled from the spec: the Backend Handle is the process-wide
accessor to live configuration state; `dump()` produces its Snapshot.
The model carries that snapshot as the backend's configuration. -/
structure Backend where
  config : JValue

/-- Modelled from the spec: `RTSRoot().dump()` — produce a serializable
snapshot of the whole configuration. -/
def Backend.dump (b : Backend) : JValue := b.config

/-- The empty backend (no configuration). -/
def Backend.empty : Backend := ⟨.jobj []⟩

/-- Modelled from the spec: `RTSRoot().restore(snapshot, clear_existing)`
applies a snapshot; per the spec's round-trip invariant, applying a
snapshot (with `clear_existing`) to an empty backend yields a backend
whose configuration is that snapshot; the ideal apply reports zero
recoverable errors. -/
def Backend.restore (_b : Backend) (snap : JValue) (_clearExisting : Bool) :
    Nat × Backend :=
  (0, ⟨snap⟩)

/-! ## Command outcomes -/

inductive LogLevel where
  | info : LogLevel
  | error : LogLevel
deriving DecidableEq

structure LogEntry where
  level : LogLevel
  msg : String
deriving DecidableEq

/-- How a command run ends abnormally: the configshell authorization
check, or an `ExecutionError` with its message. -/
inductive CmdError where
  | auth : CmdError
  | execution : String → CmdError
deriving DecidableEq

def defaultSaveFile : String := "/etc/target/saveconfig.json"

/-! ## `ui_command_saveconfig` (`ui_root.py:52-74`) -/

structure SaveOutcome where
  fs : FS
  log : List LogEntry
  trace : List FileOp
  refreshRan : Bool
  err : Option CmdError

/-- The save command `ui_command_saveconfig`.  Modelled from the source: `assert_root`
(modelled from the spec: without elevated privilege the command aborts
with an authorization error and no side effects), expand the path, try
to back up an existing file at the path (`shutil.move`, its `IOError`
swallowed when no file exists), then open-truncate, `fchmod` to owner
read/write, write the sorted-keys dump and a newline, and log success.
No refresh is invoked. -/
def ui_command_saveconfig (asRoot : Bool) (home : String) (fs0 : FS)
    (b : Backend) (savefile : String := defaultSaveFile) : SaveOutcome :=
  if asRoot = false then ⟨fs0, [], [], false, some CmdError.auth⟩
  else
    let savefile := expanduser home savefile
    let backupfile := savefile ++ ".backup"
    let writeOps : List FileOp :=
      [.openW savefile, .fchmod savefile ownerRW,
       .write savefile (dumps (Backend.dump b)), .write savefile ("\n")]
    match fs0 savefile with
    | some _ =>
      let trace := FileOp.move savefile backupfile :: writeOps
      ⟨runTrace fs0 trace,
       [⟨.info, "Existing file " ++ savefile ++ " backed up to " ++
          lastSlashComponent backupfile⟩,
        ⟨.info, "Configuration saved to " ++ savefile⟩],
       trace, false, none⟩
    | none =>
      ⟨runTrace fs0 writeOps,
       [⟨.info, "Configuration saved to " ++ savefile⟩],
       writeOps, false, none⟩

/-! ## `ui_command_restoreconfig` (`ui_root.py:76-100`) -/

structure RestoreOutcome where
  log : List LogEntry
  restoreCalled : Option (JValue × Bool)
  refreshRan : Bool
  err : Option CmdError
  backend : Backend

/-- The restore command `ui_command_restoreconfig`.  Modelled from the source: `assert_root`,
expand the path; if no file exists report "not found" and return; else
read it, `json.loads` it (a parse failure is reported as an error and
the command returns with the backend untouched); else call the
backend's `restore(snapshot, clear_existing)`, report the recoverable
error count (error log line if nonzero, info otherwise), and refresh.
The backend's restore behavior is passed in as `restoreFn` (rtslib is
external); `Backend.restore` is its spec-modelled ideal. -/
def ui_command_restoreconfig (asRoot : Bool) (home : String) (fs0 : FS)
    (b : Backend) (restoreFn : Backend → JValue → Bool → Nat × Backend)
    (savefile : String := defaultSaveFile) (clearExisting : Bool := false) :
    RestoreOutcome :=
  if asRoot = false then ⟨[], none, false, some CmdError.auth, b⟩
  else
    let savefile := expanduser home savefile
    match fs0 savefile with
    | none =>
      ⟨[⟨.info, "Restore file " ++ savefile ++ " not found"⟩],
       none, false, none, b⟩
    | some rec =>
      match loads rec.content with
      | none =>
        ⟨[⟨.error, "Error parsing savefile: " ++ savefile⟩],
         none, false, none, b⟩
      | some snap =>
        let res := restoreFn b snap clearExisting
        ⟨[if res.1 ≠ 0 then
            ⟨.error, "Configuration restored, " ++ toString res.1 ++
              " recoverable errors"⟩
          else ⟨.info, "Configuration restored from " ++ savefile⟩],
         some (snap, clearExisting), true, none, res.2⟩

/-! ## `ui_command_clearconfig` (`ui_root.py:102-114`) -/

structure ClearOutcome where
  log : List LogEntry
  clearCalled : Option Bool
  refreshRan : Bool
  err : Option CmdError

/-- Modelled from the spec: configshell's `ui_eval_param(confirm, 'bool',
False)` evaluates an optional boolean parameter, substituting the
default `False` when the parameter was not given. -/
def ui_eval_param_bool (v : Option Bool) (dflt : Bool) : Bool := v.getD dflt

/-- The clear command `ui_command_clearconfig`.  Modelled from the source: `assert_root`,
evaluate `confirm` (default false), forward it to the backend's
`clear_existing`, log "All configuration cleared", refresh.  The log
line and the refresh do not depend on the flag; only the forwarded
value does. -/
def ui_command_clearconfig (asRoot : Bool) (confirm : Option Bool) :
    ClearOutcome :=
  if asRoot = false then ⟨[], none, false, some CmdError.auth⟩
  else
    let c := ui_eval_param_bool confirm false
    ⟨[⟨.info, "All configuration cleared"⟩], some c, true, none⟩

/-! ## `ui_command_sessions` (`ui_root.py:123-205`) -/

structure MappedLUN where
  mapped_lun : Int
  udev_path : String
  write_protect : Bool
deriving DecidableEq

structure Connection where
  address : String
  transport : String
  cid : Int
  cstate : String
deriving DecidableEq

structure NodeACL where
  node_wwn : String
  authenticate_target : Bool
  mapped_luns : List MappedLUN
deriving DecidableEq

structure Session where
  sid : Int
  salias : String
  stype : String
  state : String
  parent_nodeacl : NodeACL
  connections : List Connection
deriving DecidableEq

/-- Modelled from Python's `int(str)` on the inputs the shell passes:
an optional sign followed by decimal digits; anything else raises
`ValueError` (`none`). -/
def pyInt (s : String) : Option Int :=
  match s.data with
  | [] => none
  | '-' :: ds =>
    if !ds.isEmpty && ds.all isDig then
      some (-(((ds.foldl (fun a c => a * 10 + (c.toNat - 48)) 0 : Nat) : Int)))
    else none
  | '+' :: ds =>
    if !ds.isEmpty && ds.all isDig then
      some (((ds.foldl (fun a c => a * 10 + (c.toNat - 48)) 0 : Nat) : Int))
    else none
  | ds =>
    if ds.all isDig then
      some (((ds.foldl (fun a c => a * 10 + (c.toNat - 48)) 0 : Nat) : Int))
    else none

/-- The summary line printed for every matching session
(`ui_root.py:170-173`), at `base_steps` indentation. -/
def summaryLine (s : Session) : Nat × String :=
  (0, "alias: " ++ s.salias ++ "\t" ++ "sid: " ++ toString s.sid ++
    "  type: " ++ s.stype ++ "  state: " ++ s.state)

/-- The authentication marker derived from the ACL's flag
(`ui_root.py:177-180`). -/
def authMarker (acl : NodeACL) : String :=
  if acl.authenticate_target then "authenticated" else "NOT AUTHENTICATED"

/-- The access-control identity line (`ui_root.py:176-184`): with
elevated privilege the marker is appended in parentheses; without it
the identity is shown alone. -/
def aclLine (asRoot : Bool) (acl : NodeACL) : Nat × String :=
  if asRoot then (4, acl.node_wwn ++ " (" ++ authMarker acl ++ ")")
  else (4, acl.node_wwn)

/-- One mapped-LUN line (`ui_root.py:186-193`). -/
def lunLine (m : MappedLUN) : Nat × String :=
  (4, toString m.mapped_lun ++ " " ++ m.udev_path ++
    (if m.write_protect then " (r)" else " (rw)"))

/-- One connection line (`ui_root.py:195-200`). -/
def connLine (c : Connection) : Nat × String :=
  (4, "address: " ++ c.address ++ " (" ++ c.transport ++ ")  cid: " ++
    toString c.cid ++ "  state: " ++ c.cstate)

/-- Everything printed for one matching session: the summary line, and in
`details` mode the ACL identity line, the mapped-LUN lines and the
connection lines. -/
def sessionLines (asRoot : Bool) (action : String) (s : Session) :
    List (Nat × String) :=
  summaryLine s ::
    (if action = "details" then
      aclLine asRoot s.parent_nodeacl ::
        (s.parent_nodeacl.mapped_luns.map lunLine ++
          s.connections.map connLine)
    else [])

def concatMap (f : α → List β) : List α → List β
  | [] => []
  | x :: xs => f x ++ concatMap f xs

structure SessionsOutcome where
  lines : List (Nat × String)
  refreshRan : Bool
  err : Option CmdError
deriving DecidableEq

/-- The sessions query `ui_command_sessions`.  Modelled from the source: validate `action`
against `list, details` (else `ExecutionError`); validate that `sid`,
when given, parses as an int (else `ExecutionError`); print the lines of
every session passing the sid filter; if none matched, report
"(no open sessions)" when no filter was given, else raise the
"no session found" `ExecutionError`.  Read-only: no refresh. -/
def ui_command_sessions (asRoot : Bool) (sessions : List Session)
    (action : String := "list") (sid : Option String := none) :
    SessionsOutcome :=
  if (action = "list" || action = "details") = false then
    ⟨[], false, some (.execution ("action must be one of: list, details"))⟩
  else
    let run : Option Int → SessionsOutcome := fun nOpt =>
      let matched := sessions.filter (fun s =>
        match nOpt with
        | none => true
        | some nv => s.sid == nv)
      let lines := concatMap (sessionLines asRoot action) matched
      let found := !matched.isEmpty
      if found = false then
        match nOpt with
        | none => ⟨lines ++ [(0, "(no open sessions)")], false, none⟩
        | some nv =>
          ⟨lines, false,
           some (.execution ("no session found with sid " ++ toString nv))⟩
      else ⟨lines, false, none⟩
    match sid with
    | none => run none
    | some sidStr =>
      match pyInt sidStr with
      | none =>
        ⟨[], false,
         some (.execution ("sid must be a number, '" ++ sidStr ++ "' given"))⟩
      | some nv => run (some nv)

/-! ## Filesystem bookkeeping for the save path -/

theorem fsSet_get_same (f : FS) (p : String) (r : Option FileRec) :
    fsSet f p r p = r := by
  unfold fsSet
  simp

theorem fsSet_get_other (f : FS) (p : String) (r : Option FileRec)
    (q : String) (h : q ≠ p) : fsSet f p r q = f q := by
  unfold fsSet
  simp [h]

theorem fsSet_same (f : FS) (p : String) (a b : Option FileRec) :
    fsSet (fsSet f p a) p b = fsSet f p b := by
  funext q
  unfold fsSet
  split <;> rfl

theorem str_empty_append (s : String) : "" ++ s = s := by
  cases s
  rfl

/-- The backup path is never the save path itself. -/
theorem backup_ne (p : String) : p ++ ".backup" ≠ p := by
  intro h
  have hlen := congrArg String.length h
  rw [String.length_append] at hlen
  have : (".backup" : String).length = 7 := rfl
  omega

/-- Replaying the write phase — create/truncate, `fchmod` to owner
read/write, write the document, write the newline — leaves the file at
`p` holding the document plus newline with owner-only mode. -/
theorem runTrace_writeOps (fs : FS) (p doc : String) :
    runTrace fs
        [.openW p, .fchmod p ownerRW, .write p doc, .write p ("\n")]
      = fsSet fs p (some ⟨doc ++ "\n", ownerRW⟩) := by
  simp only [runTrace, List.foldl_cons, List.foldl_nil, applyFileOp,
    fsSet_get_same, fsSet_same, str_empty_append]

/-- The final filesystem after a privileged save when no file existed at
the target path. -/
theorem saveconfig_fs_none (home : String) (fs0 : FS) (b : Backend)
    (sf : String) (hnone : fs0 (expanduser home sf) = none) :
    (ui_command_saveconfig true home fs0 b sf).fs =
      fsSet fs0 (expanduser home sf)
        (some ⟨dumps (Backend.dump b) ++ "\n", ownerRW⟩) := by
  unfold ui_command_saveconfig
  simp only [if_neg (by decide : ¬(true = false)), hnone, runTrace_writeOps]

/-- The final filesystem after a privileged save when a file existed at
the target path: it is first moved to the backup path, then the new
file is written. -/
theorem saveconfig_fs_some (home : String) (fs0 : FS) (b : Backend)
    (sf : String) (old : FileRec)
    (hsome : fs0 (expanduser home sf) = some old) :
    (ui_command_saveconfig true home fs0 b sf).fs =
      fsSet
        (fsSet (fsSet fs0 (expanduser home sf) none)
          (expanduser home sf ++ ".backup") (some old))
        (expanduser home sf)
        (some ⟨dumps (Backend.dump b) ++ "\n", ownerRW⟩) := by
  unfold ui_command_saveconfig
  simp only [if_neg (by decide : ¬(true = false)), hsome]
  simp only [runTrace, List.foldl_cons, List.foldl_nil, applyFileOp, hsome,
    fsSet_get_same, fsSet_same, str_empty_append]

/-- The save trace when no file existed (no backup rename). -/
theorem saveconfig_trace_none (home : String) (fs0 : FS) (b : Backend)
    (sf : String) (hnone : fs0 (expanduser home sf) = none) :
    (ui_command_saveconfig true home fs0 b sf).trace =
      [.openW (expanduser home sf),
       .fchmod (expanduser home sf) ownerRW,
       .write (expanduser home sf) (dumps (Backend.dump b)),
       .write (expanduser home sf) ("\n")] := by
  unfold ui_command_saveconfig
  simp only [if_neg (by decide : ¬(true = false)), hnone]

/-- The save trace when a file existed (backup rename first). -/
theorem saveconfig_trace_some (home : String) (fs0 : FS) (b : Backend)
    (sf : String) (old : FileRec)
    (hsome : fs0 (expanduser home sf) = some old) :
    (ui_command_saveconfig true home fs0 b sf).trace =
      [.move (expanduser home sf) (expanduser home sf ++ ".backup"),
       .openW (expanduser home sf),
       .fchmod (expanduser home sf) ownerRW,
       .write (expanduser home sf) (dumps (Backend.dump b)),
       .write (expanduser home sf) ("\n")] := by
  unfold ui_command_saveconfig
  simp only [if_neg (by decide : ¬(true = false)), hsome]

/-- After every privileged save, the file at the (expanded) target path
holds the dumped snapshot plus one newline, with owner-only mode. -/
theorem saveconfig_fs_get (home : String) (fs0 : FS) (b : Backend)
    (sf : String) :
    (ui_command_saveconfig true home fs0 b sf).fs (expanduser home sf) =
      some ⟨dumps (Backend.dump b) ++ "\n", ownerRW⟩ := by
  rcases hfs : fs0 (expanduser home sf) with _ | old
  · rw [saveconfig_fs_none home fs0 b sf hfs, fsSet_get_same]
  · rw [saveconfig_fs_some home fs0 b sf old hfs, fsSet_get_same]

/-! # The claims -/

/-- C1: Round-trip — saving a backend's configuration with
`ui_command_saveconfig` and then restoring the written file with
`clear_existing = true` into an empty backend through
`ui_command_restoreconfig` yields a backend whose configuration equals
the one saved; in particular deserializing the serialized snapshot
(`json.loads` of `json.dumps`) reproduces the snapshot that is passed to
the backend's restore.  Stated for canonical snapshots (ASCII,
escape-free strings; objects in the sorted-key form every reloaded dump
has). -/
theorem c1_save_restore_roundtrip (home : String) (fs0 : FS) (b : Backend)
    (sf : String) (hcan : canonical b.config = true) :
    loads (dumps b.config) = some b.config
    ∧ (ui_command_restoreconfig true home
        (ui_command_saveconfig true home fs0 b sf).fs Backend.empty
        Backend.restore sf true).restoreCalled = some (b.config, true)
    ∧ (ui_command_restoreconfig true home
        (ui_command_saveconfig true home fs0 b sf).fs Backend.empty
        Backend.restore sf true).backend.config = b.config
    ∧ (ui_command_restoreconfig true home
        (ui_command_saveconfig true home fs0 b sf).fs Backend.empty
        Backend.restore sf true).err = none
    ∧ (ui_command_restoreconfig true home
        (ui_command_saveconfig true home fs0 b sf).fs Backend.empty
        Backend.restore sf true).refreshRan = true := by
  have hfs := saveconfig_fs_get home fs0 b sf
  have hload2 : loads (dumps b.config ++ "\n") = some b.config := by
    rw [show (dumps b.config ++ "\n")
        = String.mk (dumpVal b.config 0 ++ ['\n']) from rfl]
    exact loads_dumps_newline b.config hcan
  refine ⟨loads_dumps b.config hcan, ?_, ?_, ?_, ?_⟩ <;>
    simp [ui_command_restoreconfig, hfs, hload2, Backend.restore,
      Backend.dump]

/-- C1 witness: a concrete canonical snapshot (two sorted top-level
keys) survives the save/restore round trip. -/
theorem c1_witness :
    loads (dumps (JValue.jobj
        [("storage_objects", .jarr []), ("targets", .jarr [.jint 3])]))
      = some (JValue.jobj
        [("storage_objects", .jarr []), ("targets", .jarr [.jint 3])])
    ∧ (ui_command_restoreconfig true ("/root")
        (ui_command_saveconfig true ("/root") (fun _ => none)
          ⟨.jobj [("storage_objects", .jarr []), ("targets", .jarr [.jint 3])]⟩
          ("/etc/target/saveconfig.json")).fs Backend.empty
        Backend.restore ("/etc/target/saveconfig.json") true).restoreCalled
      = some (JValue.jobj
        [("storage_objects", .jarr []), ("targets", .jarr [.jint 3])], true)
    ∧ (ui_command_restoreconfig true ("/root")
        (ui_command_saveconfig true ("/root") (fun _ => none)
          ⟨.jobj [("storage_objects", .jarr []), ("targets", .jarr [.jint 3])]⟩
          ("/etc/target/saveconfig.json")).fs Backend.empty
        Backend.restore ("/etc/target/saveconfig.json") true).backend.config
      = JValue.jobj [("storage_objects", .jarr []), ("targets", .jarr [.jint 3])]
    ∧ (ui_command_restoreconfig true ("/root")
        (ui_command_saveconfig true ("/root") (fun _ => none)
          ⟨.jobj [("storage_objects", .jarr []), ("targets", .jarr [.jint 3])]⟩
          ("/etc/target/saveconfig.json")).fs Backend.empty
        Backend.restore ("/etc/target/saveconfig.json") true).err = none
    ∧ (ui_command_restoreconfig true ("/root")
        (ui_command_saveconfig true ("/root") (fun _ => none)
          ⟨.jobj [("storage_objects", .jarr []), ("targets", .jarr [.jint 3])]⟩
          ("/etc/target/saveconfig.json")).fs Backend.empty
        Backend.restore ("/etc/target/saveconfig.json") true).refreshRan
      = true :=
  c1_save_restore_roundtrip ("/root") (fun _ => none)
    ⟨.jobj [("storage_objects", .jarr []), ("targets", .jarr [.jint 3])]⟩
    ("/etc/target/saveconfig.json")
    (by simp [canonical, canonicalList, canonicalKVs, keysSortedB, goodStr,
      goodChar, strLt, charListLt])

/-- C2: Restore parse-error atomicity — when the file's contents are not
a valid snapshot document, `ui_command_restoreconfig` logs the parse
error and stops: the backend's restore is never invoked, the backend is
unchanged, no tree refresh runs, and no exception escapes. -/
theorem c2_restore_parse_error_atomic (home : String) (fs0 : FS)
    (b : Backend) (restoreFn : Backend → JValue → Bool → Nat × Backend)
    (sf : String) (clr : Bool) (rec : FileRec)
    (hfile : fs0 (expanduser home sf) = some rec)
    (hbad : loads rec.content = none) :
    (ui_command_restoreconfig true home fs0 b restoreFn sf clr).log
      = [⟨.error, "Error parsing savefile: " ++ expanduser home sf⟩]
    ∧ (ui_command_restoreconfig true home fs0 b restoreFn sf clr).restoreCalled
      = none
    ∧ (ui_command_restoreconfig true home fs0 b restoreFn sf clr).refreshRan
      = false
    ∧ (ui_command_restoreconfig true home fs0 b restoreFn sf clr).backend = b
    ∧ (ui_command_restoreconfig true home fs0 b restoreFn sf clr).err
      = none := by
  refine ⟨?_, ?_, ?_, ?_, ?_⟩ <;>
    simp [ui_command_restoreconfig, hfile, hbad]

/-- C2 witness: a file holding `"["` (not a valid document) hits the
parse-error path with no backend call and no refresh. -/
theorem c2_witness :
    (ui_command_restoreconfig true ("/root")
        (fun q => if q = ("/etc/cfg") then some ⟨"[", 438⟩ else none)
        ⟨.null⟩ Backend.restore ("/etc/cfg") true).log
      = [⟨.error, "Error parsing savefile: " ++ expanduser ("/root") ("/etc/cfg")⟩]
    ∧ (ui_command_restoreconfig true ("/root")
        (fun q => if q = ("/etc/cfg") then some ⟨"[", 438⟩ else none)
        ⟨.null⟩ Backend.restore ("/etc/cfg") true).restoreCalled = none
    ∧ (ui_command_restoreconfig true ("/root")
        (fun q => if q = ("/etc/cfg") then some ⟨"[", 438⟩ else none)
        ⟨.null⟩ Backend.restore ("/etc/cfg") true).refreshRan = false
    ∧ (ui_command_restoreconfig true ("/root")
        (fun q => if q = ("/etc/cfg") then some ⟨"[", 438⟩ else none)
        ⟨.null⟩ Backend.restore ("/etc/cfg") true).backend = ⟨.null⟩
    ∧ (ui_command_restoreconfig true ("/root")
        (fun q => if q = ("/etc/cfg") then some ⟨"[", 438⟩ else none)
        ⟨.null⟩ Backend.restore ("/etc/cfg") true).err = none :=
  c2_restore_parse_error_atomic ("/root")
    (fun q => if q = ("/etc/cfg") then some ⟨"[", 438⟩ else none)
    ⟨.null⟩ Backend.restore ("/etc/cfg") true ⟨"[", 438⟩ rfl rfl

/-- C4: Tree-refresh discipline — the refresh runs after every restore
that applies a snapshot (for every backend restore behavior, hence for
zero and for nonzero recoverable-error counts alike) and after every
clear; `saveconfig` and the sessions query never run it; a restore that
fails to parse or finds no file skips it. -/
theorem c4_refresh_discipline :
    (∀ (home : String) (fs0 : FS) (b : Backend)
        (restoreFn : Backend → JValue → Bool → Nat × Backend)
        (sf : String) (clr : Bool) (rec : FileRec) (snap : JValue),
        fs0 (expanduser home sf) = some rec →
        loads rec.content = some snap →
        (ui_command_restoreconfig true home fs0 b restoreFn sf clr).refreshRan
          = true)
    ∧ (∀ (home : String) (fs0 : FS) (b : Backend)
        (restoreFn : Backend → JValue → Bool → Nat × Backend)
        (sf : String) (clr : Bool) (rec : FileRec),
        fs0 (expanduser home sf) = some rec →
        loads rec.content = none →
        (ui_command_restoreconfig true home fs0 b restoreFn sf clr).refreshRan
          = false)
    ∧ (∀ (home : String) (fs0 : FS) (b : Backend)
        (restoreFn : Backend → JValue → Bool → Nat × Backend)
        (sf : String) (clr : Bool),
        fs0 (expanduser home sf) = none →
        (ui_command_restoreconfig true home fs0 b restoreFn sf clr).refreshRan
          = false)
    ∧ (∀ confirm : Option Bool,
        (ui_command_clearconfig true confirm).refreshRan = true)
    ∧ (∀ (home : String) (fs0 : FS) (b : Backend) (sf : String),
        (ui_command_saveconfig true home fs0 b sf).refreshRan = false)
    ∧ (∀ (asRoot : Bool) (sessions : List Session) (action : String)
        (sid : Option String),
        (ui_command_sessions asRoot sessions action sid).refreshRan
          = false) := by
  refine ⟨?_, ?_, ?_, ?_, ?_, ?_⟩
  · intro home fs0 b restoreFn sf clr rec snap hfile hsnap
    simp [ui_command_restoreconfig, hfile, hsnap]
  · intro home fs0 b restoreFn sf clr rec hfile hbad
    simp [ui_command_restoreconfig, hfile, hbad]
  · intro home fs0 b restoreFn sf clr hnone
    simp [ui_command_restoreconfig, hnone]
  · intro confirm
    rfl
  · intro home fs0 b sf
    unfold ui_command_saveconfig
    rcases hfs : fs0 (expanduser home sf) with _ | old <;>
      simp [hfs]
  · intro asRoot sessions action sid
    unfold ui_command_sessions
    split
    · rfl
    · cases sid with
      | none =>
        simp only []
        split <;> rfl
      | some sidStr =>
        cases hp : pyInt sidStr with
        | none => simp [hp]
        | some nv =>
          simp only [hp]
          split <;> rfl

/-- C4 witness: the refresh flag at concrete inputs for the three
conditional restore branches (valid file, malformed file, missing
file). -/
theorem c4_witness :
    (ui_command_restoreconfig true ("/root")
        (fun q => if q = ("/a") then some ⟨"null", 438⟩ else none)
        ⟨.null⟩ Backend.restore ("/a") false).refreshRan = true
    ∧ (ui_command_restoreconfig true ("/root")
        (fun q => if q = ("/a") then some ⟨"[", 438⟩ else none)
        ⟨.null⟩ Backend.restore ("/a") false).refreshRan = false
    ∧ (ui_command_restoreconfig true ("/root") (fun _ => none)
        ⟨.null⟩ Backend.restore ("/a") false).refreshRan = false :=
  ⟨c4_refresh_discipline.1 ("/root")
      (fun q => if q = ("/a") then some ⟨"null", 438⟩ else none)
      ⟨.null⟩ Backend.restore ("/a") false ⟨"null", 438⟩ JValue.null rfl rfl,
   c4_refresh_discipline.2.1 ("/root")
      (fun q => if q = ("/a") then some ⟨"[", 438⟩ else none)
      ⟨.null⟩ Backend.restore ("/a") false ⟨"[", 438⟩ rfl rfl,
   c4_refresh_discipline.2.2.1 ("/root") (fun _ => none)
      ⟨.null⟩ Backend.restore ("/a") false rfl⟩

/-- C5: Permission invariant of save — after every successful privileged
`ui_command_saveconfig`, the configuration file's mode is owner
read/write only (0o600 = 384), and in the operation sequence the
`fchmod` to that mode on the just-opened descriptor precedes every
write, so no written data is ever world-readable. -/
theorem c5_save_permissions (home : String) (fs0 : FS) (b : Backend)
    (sf : String) :
    (ui_command_saveconfig true home fs0 b sf).fs (expanduser home sf)
      = some ⟨dumps (Backend.dump b) ++ "\n", ownerRW⟩
    ∧ ∃ i, (ui_command_saveconfig true home fs0 b sf).trace.get? i
          = some (.fchmod (expanduser home sf) ownerRW)
        ∧ ∀ j q d,
            (ui_command_saveconfig true home fs0 b sf).trace.get? j
              = some (.write q d) → i < j := by
  refine ⟨saveconfig_fs_get home fs0 b sf, ?_⟩
  rcases hfs : fs0 (expanduser home sf) with _ | old
  · rw [saveconfig_trace_none home fs0 b sf hfs]
    refine ⟨1, rfl, ?_⟩
    intro j q d hj
    match j, hj with
    | 2, _ => omega
    | 3, _ => omega
  · rw [saveconfig_trace_some home fs0 b sf old hfs]
    refine ⟨2, rfl, ?_⟩
    intro j q d hj
    match j, hj with
    | 3, _ => omega
    | 4, _ => omega

/-- C5 witness: the permission invariant and chmod-before-write ordering
at a concrete save. -/
theorem c5_witness :
    (ui_command_saveconfig true ("/root") (fun _ => none) ⟨.null⟩
        ("/a")).fs (expanduser ("/root") ("/a"))
      = some ⟨dumps (Backend.dump ⟨.null⟩) ++ "\n", ownerRW⟩
    ∧ ∃ i, (ui_command_saveconfig true ("/root") (fun _ => none) ⟨.null⟩
          ("/a")).trace.get? i
        = some (.fchmod (expanduser ("/root") ("/a")) ownerRW)
      ∧ ∀ j q d,
          (ui_command_saveconfig true ("/root") (fun _ => none) ⟨.null⟩
            ("/a")).trace.get? j = some (.write q d) → i < j :=
  c5_save_permissions ("/root") (fun _ => none) ⟨.null⟩ ("/a")

/-- C6: Backup rotation is best-effort — with a file at the target path,
save first renames it to `<path>.backup` (overwriting any previous
backup) before the write phase; with no file there, the rename failure
is swallowed: the save succeeds, only info lines are logged, no
`.backup` file is created, and no rename appears in the trace. -/
theorem c6_backup_rotation (home : String) (fs0 : FS) (b : Backend)
    (sf : String) :
    (∀ old, fs0 (expanduser home sf) = some old →
        (ui_command_saveconfig true home fs0 b sf).fs
            (expanduser home sf ++ ".backup") = some old
        ∧ (ui_command_saveconfig true home fs0 b sf).trace.head?
            = some (.move (expanduser home sf)
                (expanduser home sf ++ ".backup"))
        ∧ (ui_command_saveconfig true home fs0 b sf).err = none)
    ∧ (fs0 (expanduser home sf) = none →
        (ui_command_saveconfig true home fs0 b sf).err = none
        ∧ (ui_command_saveconfig true home fs0 b sf).fs
            (expanduser home sf ++ ".backup")
          = fs0 (expanduser home sf ++ ".backup")
        ∧ (ui_command_saveconfig true home fs0 b sf).fs (expanduser home sf)
          = some ⟨dumps (Backend.dump b) ++ "\n", ownerRW⟩
        ∧ (∀ e ∈ (ui_command_saveconfig true home fs0 b sf).log,
            e.level = LogLevel.info)
        ∧ (∀ src dst,
            FileOp.move src dst ∉
              (ui_command_saveconfig true home fs0 b sf).trace)) := by
  constructor
  · intro old hsome
    refine ⟨?_, ?_, ?_⟩
    · rw [saveconfig_fs_some home fs0 b sf old hsome,
        fsSet_get_other _ _ _ _ (backup_ne _), fsSet_get_same]
    · rw [saveconfig_trace_some home fs0 b sf old hsome]
      rfl
    · unfold ui_command_saveconfig
      simp [hsome]
  · intro hnone
    refine ⟨?_, ?_, ?_, ?_, ?_⟩
    · unfold ui_command_saveconfig
      simp [hnone]
    · rw [saveconfig_fs_none home fs0 b sf hnone,
        fsSet_get_other _ _ _ _ (backup_ne _)]
    · exact saveconfig_fs_get home fs0 b sf
    · unfold ui_command_saveconfig
      simp only [if_neg (by decide : ¬(true = false)), hnone]
      intro e he
      simp only [List.mem_singleton] at he
      rw [he]
    · intro src dst
      rw [saveconfig_trace_none home fs0 b sf hnone]
      simp

/-- C6 witness: both branches at concrete inputs — an existing file is
rotated to `.backup`; with no prior file the save succeeds without
creating one. -/
theorem c6_witness :
    ((ui_command_saveconfig true ("/root")
        (fun q => if q = ("/a") then some ⟨"old", 384⟩ else none)
        ⟨.null⟩ ("/a")).fs (expanduser ("/root") ("/a") ++ ".backup")
      = some ⟨"old", 384⟩
    ∧ (ui_command_saveconfig true ("/root")
        (fun q => if q = ("/a") then some ⟨"old", 384⟩ else none)
        ⟨.null⟩ ("/a")).trace.head?
      = some (.move (expanduser ("/root") ("/a"))
          (expanduser ("/root") ("/a") ++ ".backup"))
    ∧ (ui_command_saveconfig true ("/root")
        (fun q => if q = ("/a") then some ⟨"old", 384⟩ else none)
        ⟨.null⟩ ("/a")).err = none)
    ∧ ((ui_command_saveconfig true ("/root") (fun _ => none)
          ⟨.null⟩ ("/a")).err = none
      ∧ (ui_command_saveconfig true ("/root") (fun _ => none)
          ⟨.null⟩ ("/a")).fs (expanduser ("/root") ("/a") ++ ".backup")
        = (fun _ => (none : Option FileRec))
            (expanduser ("/root") ("/a") ++ ".backup")
      ∧ (ui_command_saveconfig true ("/root") (fun _ => none)
          ⟨.null⟩ ("/a")).fs (expanduser ("/root") ("/a"))
        = some ⟨dumps (Backend.dump ⟨.null⟩) ++ "\n", ownerRW⟩
      ∧ (∀ e ∈ (ui_command_saveconfig true ("/root") (fun _ => none)
          ⟨.null⟩ ("/a")).log, e.level = LogLevel.info)
      ∧ (∀ src dst, FileOp.move src dst ∉
          (ui_command_saveconfig true ("/root") (fun _ => none)
            ⟨.null⟩ ("/a")).trace)) :=
  ⟨(c6_backup_rotation ("/root")
      (fun q => if q = ("/a") then some ⟨"old", 384⟩ else none)
      ⟨.null⟩ ("/a")).1 ⟨"old", 384⟩ rfl,
   (c6_backup_rotation ("/root") (fun _ => none) ⟨.null⟩ ("/a")).2 rfl⟩

/-- C7: Restore on a missing file is a soft no-op — when the expanded
path names no file, `ui_command_restoreconfig` logs the "not found"
info line and returns without error; the backend is untouched, its
restore is not called, and no refresh runs. -/
theorem c7_restore_missing_noop (home : String) (fs0 : FS) (b : Backend)
    (restoreFn : Backend → JValue → Bool → Nat × Backend)
    (sf : String) (clr : Bool)
    (hnone : fs0 (expanduser home sf) = none) :
    (ui_command_restoreconfig true home fs0 b restoreFn sf clr).log
      = [⟨.info, "Restore file " ++ expanduser home sf ++ " not found"⟩]
    ∧ (ui_command_restoreconfig true home fs0 b restoreFn sf clr).err = none
    ∧ (ui_command_restoreconfig true home fs0 b restoreFn sf clr).restoreCalled
      = none
    ∧ (ui_command_restoreconfig true home fs0 b restoreFn sf clr).refreshRan
      = false
    ∧ (ui_command_restoreconfig true home fs0 b restoreFn sf clr).backend
      = b := by
  refine ⟨?_, ?_, ?_, ?_, ?_⟩ <;>
    simp [ui_command_restoreconfig, hnone]

/-- C7 witness: restore of a nonexistent path at concrete inputs. -/
theorem c7_witness :
    (ui_command_restoreconfig true ("/root") (fun _ => none)
        ⟨.null⟩ Backend.restore ("/missing.json") false).log
      = [⟨.info, "Restore file " ++ expanduser ("/root") ("/missing.json")
          ++ " not found"⟩]
    ∧ (ui_command_restoreconfig true ("/root") (fun _ => none)
        ⟨.null⟩ Backend.restore ("/missing.json") false).err = none
    ∧ (ui_command_restoreconfig true ("/root") (fun _ => none)
        ⟨.null⟩ Backend.restore ("/missing.json") false).restoreCalled = none
    ∧ (ui_command_restoreconfig true ("/root") (fun _ => none)
        ⟨.null⟩ Backend.restore ("/missing.json") false).refreshRan = false
    ∧ (ui_command_restoreconfig true ("/root") (fun _ => none)
        ⟨.null⟩ Backend.restore ("/missing.json") false).backend = ⟨.null⟩ :=
  c7_restore_missing_noop ("/root") (fun _ => none) ⟨.null⟩ Backend.restore
    ("/missing.json") false rfl

/-- C9: Save serialization format — every successful privileged save
writes exactly the deterministic sorted-keys, indent-2 serialization of
the snapshot followed by one newline (so the file is a single document
ending in exactly one trailing newline), and the item list every
object is rendered from is in ascending key order. -/
theorem c9_save_format (home : String) (fs0 : FS) (b : Backend)
    (sf : String) :
    (ui_command_saveconfig true home fs0 b sf).fs (expanduser home sf)
      = some ⟨dumps (Backend.dump b) ++ "\n", ownerRW⟩
    ∧ endsWithOneNl (dumps (Backend.dump b) ++ "\n").data
    ∧ (∀ kvs : List (String × JValue), keysSortedLe (sortKVs kvs) = true) := by
  refine ⟨saveconfig_fs_get home fs0 b sf, ?_, fun kvs => sortKVs_sorted kvs⟩
  exact ⟨dumpVal (Backend.dump b) 0, rfl, dumpVal_getLast_ne_nl _ 0⟩

/-! ### Sessions helpers for C3/C8 -/

/-- The same session with its ACL's authentication flag replaced. -/
def setAuthFlag (bval : Bool) (s : Session) : Session :=
  { s with parent_nodeacl :=
      { s.parent_nodeacl with authenticate_target := bval } }

theorem sessionLines_setAuthFlag (bval : Bool) (act : String) (s : Session) :
    sessionLines false act (setAuthFlag bval s) = sessionLines false act s :=
  rfl

theorem filter_map_setAuthFlag (bval : Bool) (nv : Int) (l : List Session) :
    (l.map (setAuthFlag bval)).filter (fun s => s.sid == nv)
      = (l.filter (fun s => s.sid == nv)).map (setAuthFlag bval) := by
  induction l with
  | nil => rfl
  | cons s t ih =>
    simp only [List.map_cons, List.filter_cons]
    rw [show ((setAuthFlag bval s).sid == nv) = (s.sid == nv) from rfl]
    by_cases h : (s.sid == nv) = true
    · simp only [h, if_true, List.map_cons, ih]
    · simp only [Bool.not_eq_true] at h
      simp only [h, Bool.false_eq_true, if_false, ih]

theorem concatMap_sessionLines_map (bval : Bool) (act : String)
    (l : List Session) :
    concatMap (sessionLines false act) (l.map (setAuthFlag bval))
      = concatMap (sessionLines false act) l := by
  induction l with
  | nil => rfl
  | cons s t ih =>
    simp only [List.map_cons, concatMap, ih, sessionLines_setAuthFlag]

theorem isEmpty_map (f : Session → Session) (l : List Session) :
    (l.map f).isEmpty = l.isEmpty := by
  cases l <;> rfl

/-- C3: Privilege-gated disclosure in `sessions details` — without
elevated privilege, the whole command output is unchanged when every
session's authentication flag is rewritten (the output is independent of
the flag), and the per-session identity line carries exactly the
access-control identity with no marker; with elevated privilege the
identity line appends the "authenticated"/"NOT AUTHENTICATED" marker
derived from the flag. -/
theorem c3_sessions_privilege_gating :
    (∀ (sessions : List Session) (sid : Option String) (bval : Bool),
        ui_command_sessions false (sessions.map (setAuthFlag bval))
            ("details") sid
          = ui_command_sessions false sessions ("details") sid)
    ∧ (∀ s : Session, (sessionLines false ("details") s).get? 1
        = some (4, s.parent_nodeacl.node_wwn))
    ∧ (∀ s : Session, (sessionLines true ("details") s).get? 1
        = some (4, s.parent_nodeacl.node_wwn ++ " (" ++
            (if s.parent_nodeacl.authenticate_target then "authenticated"
             else "NOT AUTHENTICATED") ++ ")")) := by
  refine ⟨?_, ?_, ?_⟩
  · intro sessions sid bval
    unfold ui_command_sessions
    rw [if_neg (by decide), if_neg (by decide)]
    cases sid with
    | none =>
      simp only []
      rw [show (sessions.map (setAuthFlag bval)).filter
            (fun s => match (none : Option Int) with
              | none => true
              | some nv => s.sid == nv)
          = (sessions.map (setAuthFlag bval)).filter (fun _ => true)
          from rfl,
        show sessions.filter
            (fun s => match (none : Option Int) with
              | none => true
              | some nv => s.sid == nv)
          = sessions.filter (fun _ => true) from rfl,
        List.filter_true, List.filter_true,
        concatMap_sessionLines_map, isEmpty_map]
    | some sidStr =>
      cases hp : pyInt sidStr with
      | none => simp only [hp]
      | some nv =>
        simp only [hp]
        rw [show (fun (s : Session) => match (some nv : Option Int) with
              | none => true
              | some nv => s.sid == nv)
            = (fun s => s.sid == nv) from rfl]
        rw [filter_map_setAuthFlag, concatMap_sessionLines_map,
          show ((sessions.filter (fun s => s.sid == nv)).map
              (setAuthFlag bval)).isEmpty
            = (sessions.filter (fun s => s.sid == nv)).isEmpty
          from isEmpty_map _ _]
  · intro s
    rfl
  · intro s
    rfl

/-- C8: Sessions found / not-found postcondition — a sid filter matching
exactly one session yields exactly that session's summary line and no
failure; a sid filter matching no session raises the failure naming
that id; no filter over zero sessions yields exactly the informational
"(no open sessions)" line and no failure. -/
theorem c8_sessions_found_notfound :
    (∀ (asRoot : Bool) (ss : List Session) (sidStr : String) (nv : Int)
        (s0 : Session),
        pyInt sidStr = some nv →
        ss.filter (fun s => s.sid == nv) = [s0] →
        ui_command_sessions asRoot ss ("list") (some sidStr)
          = ⟨[summaryLine s0], false, none⟩)
    ∧ (∀ (asRoot : Bool) (ss : List Session) (sidStr : String) (nv : Int),
        pyInt sidStr = some nv →
        (∀ s ∈ ss, ¬(s.sid = nv)) →
        ui_command_sessions asRoot ss ("list") (some sidStr)
          = ⟨[], false,
             some (.execution ("no session found with sid " ++ toString nv))⟩)
    ∧ (∀ asRoot : Bool,
        ui_command_sessions asRoot [] ("list") none
          = ⟨[(0, "(no open sessions)")], false, none⟩) := by
  refine ⟨?_, ?_, ?_⟩
  · intro asRoot ss sidStr nv s0 hpy hfilter
    unfold ui_command_sessions
    rw [if_neg (by decide)]
    simp only [hpy]
    rw [show (fun (s : Session) => match (some nv : Option Int) with
          | none => true
          | some nv => s.sid == nv)
        = (fun s => s.sid == nv) from rfl,
      hfilter]
    rfl
  · intro asRoot ss sidStr nv hpy hnone
    have hfilter : ss.filter (fun s => s.sid == nv) = [] := by
      rw [List.filter_eq_nil_iff]
      intro s hs
      simp only [beq_iff_eq]
      exact hnone s hs
    unfold ui_command_sessions
    rw [if_neg (by decide)]
    simp only [hpy]
    rw [show (fun (s : Session) => match (some nv : Option Int) with
          | none => true
          | some nv => s.sid == nv)
        = (fun s => s.sid == nv) from rfl,
      hfilter]
    rfl
  · intro asRoot
    rfl

/-- C8 witness: with sessions `{1, 2, 3}`, `sid=2` yields exactly session
2's summary line; `sid=9` raises the not-found failure naming 9; zero
sessions with no filter yield only the informational line. -/
theorem c8_witness :
    ui_command_sessions false
        [⟨1, "a1", "iscsi", "LOGGED_IN", ⟨"wwn1", false, []⟩, []⟩,
         ⟨2, "a2", "iscsi", "LOGGED_IN", ⟨"wwn2", true, []⟩, []⟩,
         ⟨3, "a3", "iscsi", "LOGGED_IN", ⟨"wwn3", false, []⟩, []⟩]
        ("list") (some ("2"))
      = ⟨[summaryLine ⟨2, "a2", "iscsi", "LOGGED_IN", ⟨"wwn2", true, []⟩, []⟩],
         false, none⟩
    ∧ ui_command_sessions false
        [⟨1, "a1", "iscsi", "LOGGED_IN", ⟨"wwn1", false, []⟩, []⟩,
         ⟨2, "a2", "iscsi", "LOGGED_IN", ⟨"wwn2", true, []⟩, []⟩,
         ⟨3, "a3", "iscsi", "LOGGED_IN", ⟨"wwn3", false, []⟩, []⟩]
        ("list") (some ("9"))
      = ⟨[], false,
         some (.execution ("no session found with sid " ++ toString (9 : Int)))⟩
    ∧ ui_command_sessions false [] ("list") none
      = ⟨[(0, "(no open sessions)")], false, none⟩ :=
  ⟨c8_sessions_found_notfound.1 false
      [⟨1, "a1", "iscsi", "LOGGED_IN", ⟨"wwn1", false, []⟩, []⟩,
       ⟨2, "a2", "iscsi", "LOGGED_IN", ⟨"wwn2", true, []⟩, []⟩,
       ⟨3, "a3", "iscsi", "LOGGED_IN", ⟨"wwn3", false, []⟩, []⟩]
      ("2") 2 ⟨2, "a2", "iscsi", "LOGGED_IN", ⟨"wwn2", true, []⟩, []⟩
      rfl rfl,
   c8_sessions_found_notfound.2.1 false
      [⟨1, "a1", "iscsi", "LOGGED_IN", ⟨"wwn1", false, []⟩, []⟩,
       ⟨2, "a2", "iscsi", "LOGGED_IN", ⟨"wwn2", true, []⟩, []⟩,
       ⟨3, "a3", "iscsi", "LOGGED_IN", ⟨"wwn3", false, []⟩, []⟩]
      ("9") 9 rfl (by decide),
   c8_sessions_found_notfound.2.2 false⟩

/-- C10: `ui_command_clearconfig` logs the "All configuration cleared"
success line and runs the refresh for every value of the confirm flag —
absent included: the evaluated flag is only forwarded to the backend's
`clear_existing`. -/
theorem c10_clearconfig_unconditional (confirm : Option Bool) :
    (ui_command_clearconfig true confirm).log
      = [⟨.info, "All configuration cleared"⟩]
    ∧ (ui_command_clearconfig true confirm).refreshRan = true
    ∧ (ui_command_clearconfig true confirm).err = none
    ∧ (ui_command_clearconfig true confirm).clearCalled
      = some (ui_eval_param_bool confirm false) :=
  ⟨rfl, rfl, rfl, rfl⟩

end Targetcli
